import Mathlib

/-! The tool `tgswitch`: constraint resolver and source-precedence cascade.

A shallow embedding of `src/lib/semver.go`, `src/lib/env.go` and `src/main.go`.

* Code outside the repository (the `hashicorp/go-version` library, Go's `sort.Sort`) and the
  `lib` functions defined in other files of the package are collected in the structure `Ext`;
  every general theorem quantifies over all of `Ext`.
* The state a run of `main` can observe (arguments, flags, files, environment, catalog, prompt
  answer) is the structure `World`.
* What a run does is an `Outcome`: every path of `main` ends in at most one call of
  `lib.Install`, so the outcome records which terminal action was taken and with which strings.
-/

namespace Tgswitch

/-! ## External code used by `SemVerParser` -/

/-- Interface of the `hashicorp/go-version` library as used by `lib/semver.go`:
`NewVersion`, `NewConstraint`, `Constraints.Check`, `Version.String` and the `Less` of
`semver.Collection` (`Version.LessThan`). Errors carry the library's message. -/
structure SemverLib where
  /-- The type `*semver.Version`. -/
  Version : Type
  /-- The type `semver.Constraints`. -/
  Constraints : Type
  /-- The function `semver.NewVersion`. -/
  NewVersion : String → Except String Version
  /-- The function `semver.NewConstraint`. -/
  NewConstraint : String → Except String Constraints
  /-- The method `Version.LessThan`, the `Less` of `semver.Collection`. -/
  LessThan : Version → Version → Bool
  /-- The method `Constraints.Check`. -/
  Check : Constraints → Version → Bool
  /-- The method `Version.String`, the canonical rendering. -/
  VersionString : Version → String

/-- Everything `SemVerParser` and `main` call that is not under `src/`: the version library,
Go's `sort.Sort(sort.Reverse(_))` on a `semver.Collection`, and the `lib` helpers. -/
structure Ext where
  /-- The `hashicorp/go-version` library. -/
  semver : SemverLib
  /-- The call `sort.Sort(sort.Reverse(semver.Collection(versions)))`, as a function. -/
  sortReverse : List semver.Version → List semver.Version
  /-- The function `lib.ValidVersionFormat`. -/
  ValidVersionFormat : String → Bool
  /-- The function `lib.VersionExist`. -/
  VersionExist : String → List String → Bool
  /-- The function `lib.RetrieveFileContents`, from the raw bytes of the file. -/
  RetrieveFileContents : String → String
  /-- The function `lib.RemoveDuplicateVersions`. -/
  RemoveDuplicateVersions : List String → List String
  /-- The function `lib.ConvertExecutableExt`. -/
  ConvertExecutableExt : String → String

/-- The list `out` is in descending order: no element is `LessThan` one that comes after it.
This is what `sort.Sort(sort.Reverse(c))` leaves behind when `LessThan` is a strict weak order
on the elements of `c`; for a `LessThan` that is not, `sort.Sort` promises no order. Nothing
is said about ties, the sort is not stable. -/
def Descending (L : SemverLib) (out : List L.Version) : Prop :=
  out.Pairwise (fun a b => L.LessThan a b = false)

/-! ## `lib/semver.go` -/

/-- The three `return "", fmt.Errorf(...)` sites of `SemVerParser`. -/
inductive SemVerError where
  /-- Line 26: `semver.NewConstraint` failed with `err`. -/
  | constraint (err : String)
  /-- Line 33: `semver.NewVersion` failed with `err` on a catalog entry. -/
  | version (err : String)
  /-- Line 51: the scan ended without a match; the error is built from the constraint text. -/
  | noMatch (tfconstraint : String)
  deriving DecidableEq, Repr

/-- The text of the Go error value, `fmt.Errorf("error parsing constraint: %s", _)`. -/
def SemVerError.Error : SemVerError → String
  | .constraint err => "error parsing constraint: " ++ err
  | .version err => "error parsing constraint: " ++ err
  | .noMatch tfconstraint => "error parsing constraint: " ++ tfconstraint

/-- Lines 28-36 of `SemVerParser`: every entry is parsed, in order; the first entry that
`semver.NewVersion` rejects ends the whole call with its error. -/
def parseVersions (L : SemverLib) : List String → Except String (List L.Version)
  | [] => .ok []
  | tfvals :: rest =>
    match L.NewVersion tfvals with
    | .error err => .error err
    | .ok version =>
      match parseVersions L rest with
      | .error err => .error err
      | .ok versions => .ok (version :: versions)

/-- Lines 40-48 of `SemVerParser`: the scan over the sorted versions. The first element that
passes `constraints.Check` and whose rendering passes `ValidVersionFormat` is returned; an
element that passes `Check` but not the format test is left and the loop goes on. -/
def scanVersions (X : Ext) (constraints : X.semver.Constraints) :
    List X.semver.Version → Option String
  | [] => none
  | element :: rest =>
    if X.semver.Check constraints element then
      let tgversion := X.semver.VersionString element
      if X.ValidVersionFormat tgversion then some tgversion
      else scanVersions X constraints rest
    else scanVersions X constraints rest

/-- The function `SemVerParser` of `lib/semver.go`. The Go result `(string, error)` is the pair
of the returned string and the error, `none` for `nil`. -/
def SemVerParser (X : Ext) (tfconstraint : String) (tflist : List String) :
    String × Option SemVerError :=
  match X.semver.NewConstraint tfconstraint with
  | .error err => ("", some (.constraint err))
  | .ok constraints =>
    match parseVersions X.semver tflist with
    | .error err => ("", some (.version err))
    | .ok versions =>
      match scanVersions X constraints (X.sortReverse versions) with
      | some tgversion => (tgversion, none)
      | none => ("", some (.noMatch tfconstraint))

/-- The function `GetSemver` of `lib/semver.go`: `SemVerParser` on the upstream catalog
`tglist := GetAppList(ctx, ghClient)`. -/
def GetSemver (X : Ext) (tglist : List String) (tgconstraint : String) :
    String × Option SemVerError :=
  SemVerParser X tgconstraint tglist

/-! ## The state a run observes -/

/-- A value returned by `viper.Get`: a string, or a value of any other TOML type, on which the
type assertion `.(string)` panics. -/
inductive TomlValue where
  /-- A TOML string. -/
  | str (s : String)
  /-- Any TOML value that is not a string (integer, boolean, table, ...). -/
  | other
  deriving DecidableEq, Repr

/-- A `.tgswitch.toml` file that exists, as `viper` sees it. -/
inductive TomlFile where
  /-- The call `viper.ReadInConfig()` returns an error. -/
  | unreadable
  /-- The file is read; `bin` and `version` are `viper.Get("bin")` and `viper.Get("version")`,
  `none` for `nil` (key not declared). -/
  | config (bin version : Option TomlValue)
  deriving DecidableEq, Repr

/-- A `terragrunt.hcl` file that exists, as `hclparse` and `gohcl.DecodeBody` see it. -/
inductive HclFile where
  /-- The call `parser.ParseHCLFile` reports errors. -/
  | parseError
  /-- The file parses; the field is `version.TerragruntVersionConstraint` after `DecodeBody`,
  the empty string when the attribute `terragrunt_version_constraint` is not there. -/
  | body (TerragruntVersionConstraint : String)
  deriving DecidableEq, Repr

/-- Everything a run of `main` reads from outside. A file that does not exist
(`lib.FileExists` false) is `none`. -/
structure World where
  /-- The function `os.Getenv`. -/
  Getenv : String → String
  /-- The function `os.ExpandEnv`, in the environment of this run. -/
  ExpandEnv : String → String
  /-- The parsed `--bin` flag `*custBinPath`; its default is
  `lib.ConvertExecutableExt(defaultBin)`. -/
  custBinPath : String
  /-- The parsed `--version` flag. -/
  versionFlag : Bool
  /-- The parsed `--help` flag. -/
  helpFlag : Bool
  /-- The positional arguments `getopt.Args()`. -/
  args : List String
  /-- The file `.tgswitch.toml` of the working directory. -/
  TOMLConfigFile : Option TomlFile
  /-- The file `.tgswitch.toml` of the home directory. -/
  HomeTOMLConfigFile : Option TomlFile
  /-- The raw contents of `.tgswitchrc`. -/
  RCFile : Option String
  /-- The raw contents of `.terragrunt-version`. -/
  TGVersionFile : Option String
  /-- The file `terragrunt.hcl`. -/
  TGHACLFile : Option HclFile
  /-- The upstream catalog `lib.GetAppList(ctx, ghClient)`. -/
  GetAppList : List String
  /-- The list `lib.GetRecentVersions(true)` shown on top of the menu. -/
  recentVersionsMenu : List String
  /-- The list `lib.GetRecentVersions(false)` of the versions installed locally. -/
  recentVersions : List String
  /-- Whether `lib.CheckFileExist` finds the binary of the requested version in the install
  location (`installFileVersionPath` of `installVersion`). -/
  recentDownloadFile : String → Bool
  /-- The answer of `prompt.Run()` on the given items, `none` when it returns an error. -/
  promptRun : List String → Option String

/-- How a run ends. -/
inductive Outcome where
  /-- The version banner is printed (`--version`). -/
  | printedVersion
  /-- The call `usageMessage()` of the `--help` case. -/
  | usage
  /-- The positional argument fails the format test: `"Args must be a valid terragrunt
  version"` and `usageMessage()` are printed and `main` returns. -/
  | argRejected
  /-- The call `lib.Install(ctx, version, binPath, ghClient)`. -/
  | install (version binPath : String)
  /-- The branch `recentDownloadFile` of `installVersion`: `lib.ChangeSymlink`, `lib.AddRecent`,
  `os.Exit(0)`; `lib.Install` is not called. -/
  | switched (version binPath : String)
  /-- The call `lib.VersionExist` returns false: nothing is installed and `main` returns. -/
  | versionNotFound (version : String)
  /-- The `else` branch of `installVersion`: `lib.PrintInvalidTGVersion()`, `usageMessage()`,
  `log.Fatalln`. -/
  | fatalInvalidVersion (arg : String)
  /-- The call `log.Fatalf` of `GetParamsTOML`. -/
  | fatalTOML
  /-- A failed type assertion `.(string)` in `GetParamsTOML`. -/
  | panicTOML
  /-- The call `log.Fatalf` of `checkVersionDefinedHCL`. -/
  | fatalHCL
  /-- The call `os.Exit(1)` of `installTGHclFile`. -/
  | exitHCL
  /-- The call `os.Exit(1)` of `installFromConstraint`, after printing `err`. -/
  | exitConstraint (err : SemVerError)
  /-- The call `os.Exit(1)` of `installFromList` when the prompt fails. -/
  | exitPrompt
  deriving DecidableEq, Repr

/-- The version string handed to `lib.Install`, when `lib.Install` is called. -/
def Outcome.installed : Outcome → Option String
  | .install version _ => some version
  | _ => none

/-- Whether the run called `usageMessage()`. -/
def Outcome.printsUsage : Outcome → Bool
  | .usage => true
  | .argRejected => true
  | .fatalInvalidVersion _ => true
  | _ => false

/-! ## `lib/env.go` -/

/-- The function `GetEnvStr`: the value and whether `errEnvVarEmpty` is returned. -/
def GetEnvStr (W : World) (key : String) : String × Bool :=
  let v := W.Getenv key
  if v = "" then (v, true) else (v, false)

/-- The function `GetEnvStrWithFallback`. -/
def GetEnvStrWithFallback (W : World) (key fallback : String) : String :=
  let (value, err) := GetEnvStr W key
  if err then fallback else value

/-- The function `strconv.ParseBool` of the Go standard library. -/
def ParseBool (str : String) : Option Bool :=
  if str ∈ ["1", "t", "T", "TRUE", "true", "True"] then some true
  else if str ∈ ["0", "f", "F", "FALSE", "false", "False"] then some false
  else none

/-- The function `GetEnvBool`: the value, `none` when an error is returned. -/
def GetEnvBool (W : World) (key : String) : Option Bool :=
  let (s, err) := GetEnvStr W key
  if err then none else ParseBool s

/-- The function `GetEnvBoolWithFallback`. -/
def GetEnvBoolWithFallback (W : World) (key : String) (fallback : Bool) : Bool :=
  match GetEnvBool W key with
  | none => fallback
  | some v => v

/-- The function `CheckEnvExist`. -/
def CheckEnvExist (W : World) (key : String) : Bool :=
  W.Getenv key != ""

/-! ## `main.go` -/

/-- The constant `defaultBin`. -/
def defaultBin : String := "/usr/local/bin/terragrunt"

/-- The package variable `preferLocalBinaries`. -/
def preferLocalBinaries (W : World) : Bool :=
  GetEnvBoolWithFallback W "TGS_PREFER_LOCAL" false

/-- The function `strings.TrimSuffix` of the Go standard library. -/
def TrimSuffix (s suffix : String) : String :=
  if suffix.data.isSuffixOf s.data then
    String.mk (s.data.take (s.data.length - suffix.data.length))
  else s

/-- The function `GetParamsTOML`, on the TOML file found in `dir`: the pair
`(version, binPath)` it returns, or the way it aborts. -/
def GetParamsTOML (X : Ext) (W : World) (binPath : String) (file : TomlFile) :
    Except Outcome (String × String) :=
  match file with
  | .unreadable => .error .fatalTOML
  | .config bin version =>
    let binPath' : Except Outcome String :=
      if binPath = X.ConvertExecutableExt defaultBin then
        match bin with
        | none => .ok binPath
        | some (.str s) => .ok (W.ExpandEnv s)
        | some .other => .error .panicTOML
      else .ok binPath
    match binPath' with
    | .error o => .error o
    | .ok binPath =>
      match version with
      | none => .ok ("", binPath)
      | some (.str v) => .ok (v, binPath)
      | some .other => .error .panicTOML

/-- The function `installFromList`. -/
def installFromList (X : Ext) (W : World) (custBinPath : String) : Outcome :=
  let listOfVersions := W.GetAppList
  let recentVersions := W.recentVersionsMenu
  let listOfVersions := recentVersions ++ listOfVersions
  let listOfVersions := X.RemoveDuplicateVersions listOfVersions
  match W.promptRun listOfVersions with
  | none => .exitPrompt
  | some tgversion =>
    let tgversion := TrimSuffix tgversion " *recent"
    .install tgversion custBinPath

/-- The function `installVersion`. -/
def installVersion (X : Ext) (W : World) (arg custBinPath : String) : Outcome :=
  if X.ValidVersionFormat arg then
    let requestedVersion := arg
    if W.recentDownloadFile requestedVersion then
      .switched requestedVersion custBinPath
    else
      let listOfVersions := W.GetAppList
      if X.VersionExist requestedVersion listOfVersions then
        .install requestedVersion custBinPath
      else .versionNotFound requestedVersion
  else .fatalInvalidVersion arg

/-- The function `installFromConstraint`. -/
def installFromConstraint (X : Ext) (W : World) (tgconstraint custBinPath : String) : Outcome :=
  match GetSemver X W.GetAppList tgconstraint with
  | (_, some err) => .exitConstraint err
  | (tgversion, none) =>
    let tgversion :=
      if preferLocalBinaries W then
        let recentVersions := W.recentVersions
        match SemVerParser X tgconstraint recentVersions with
        | (existingVersion, none) => existingVersion
        | (_, some _) => tgversion
      else tgversion
    .install tgversion custBinPath

/-- The function `installTGHclFile`. -/
def installTGHclFile (X : Ext) (W : World) (tgFile : HclFile) (custBinPath : String) : Outcome :=
  match tgFile with
  | .parseError => .exitHCL
  | .body TerragruntVersionConstraint =>
    installFromConstraint X W TerragruntVersionConstraint custBinPath

/-- The function `checkVersionDefinedHCL`: its result, or `log.Fatalf`. -/
def checkVersionDefinedHCL (tgFile : HclFile) : Except Outcome Bool :=
  match tgFile with
  | .parseError => .error .fatalHCL
  | .body TerragruntVersionConstraint => .ok (TerragruntVersionConstraint != "")

/-- The `case` condition
`lib.FileExists(TGHACLFile) && checkVersionDefinedHCL(&TGHACLFile) && len(args) == 0`,
evaluated left to right with short circuit: the HCL file found, or `none` when the condition
is false; `checkVersionDefinedHCL` may abort the run. -/
def hclCase (W : World) : Except Outcome (Option HclFile) :=
  match W.TGHACLFile with
  | none => .ok none
  | some tgFile =>
    match checkVersionDefinedHCL tgFile with
    | .error o => .error o
    | .ok defined => if defined && W.args.length == 0 then .ok (some tgFile) else .ok none

/-- The body of `case len(args) == 1` (the same text in both ladders, lines 107-120 and
148-161). -/
def installArg (X : Ext) (W : World) (binPath : String) : Outcome :=
  let requestedVersion := W.args.getD 0 ""
  if X.ValidVersionFormat requestedVersion then
    let listOfVersions := W.GetAppList
    if X.VersionExist requestedVersion listOfVersions then
      .install requestedVersion binPath
    else .versionNotFound requestedVersion
  else .argRejected

/-- Lines 105-145 of `main`: the inner `switch`, "GIVEN A TOML FILE", with the `version` and
`binPath` that `GetParamsTOML` returned. -/
def ladderTOML (X : Ext) (W : World) (version binPath : String) : Outcome :=
  if W.args.length == 1 then installArg X W binPath
  else if W.RCFile.isSome && W.args.length == 0 then
    installVersion X W (X.RetrieveFileContents (W.RCFile.getD "")) binPath
  else if W.TGVersionFile.isSome && W.args.length == 0 then
    installVersion X W (X.RetrieveFileContents (W.TGVersionFile.getD "")) binPath
  else
    match hclCase W with
    | .error o => o
    | .ok (some tgFile) => installTGHclFile X W tgFile binPath
    | .ok none =>
      if CheckEnvExist W "TG_VERSION" && W.args.length == 0 && version == "" then
        installVersion X W (GetEnvStr W "TG_VERSION").1 binPath
      else if version != "" then .install version binPath
      else installFromList X W binPath

/-- Lines 147-183 of `main`: the cases of the outer `switch` when no TOML file exists. -/
def ladderNoTOML (X : Ext) (W : World) : Outcome :=
  if W.args.length == 1 then installArg X W W.custBinPath
  else if W.RCFile.isSome && W.args.length == 0 then
    installVersion X W (X.RetrieveFileContents (W.RCFile.getD "")) W.custBinPath
  else if W.TGVersionFile.isSome && W.args.length == 0 then
    installVersion X W (X.RetrieveFileContents (W.TGVersionFile.getD "")) W.custBinPath
  else
    match hclCase W with
    | .error o => o
    | .ok (some tgFile) => installTGHclFile X W tgFile W.custBinPath
    | .ok none =>
      if CheckEnvExist W "TG_VERSION" && W.args.length == 0 then
        installVersion X W (GetEnvStr W "TG_VERSION").1 W.custBinPath
      else installFromList X W W.custBinPath

/-- Lines 96-145 of `main`: the case in which a TOML file exists; `file` is the one of the
working directory when that exists and the one of the home directory otherwise. -/
def tomlCase (X : Ext) (W : World) (file : TomlFile) : Outcome :=
  let binPath := W.custBinPath
  match GetParamsTOML X W binPath file with
  | .error o => o
  | .ok (version, binPath) => ladderTOML X W version binPath

/-- The function `main`: the outer `switch` of lines 83-183. -/
def main (X : Ext) (W : World) : Outcome :=
  if W.versionFlag then .printedVersion
  else if W.helpFlag then .usage
  else
    match W.TOMLConfigFile, W.HomeTOMLConfigFile with
    | some file, _ => tomlCase X W file
    | none, some file => tomlCase X W file
    | none, none => ladderNoTOML X W

/-! ## Instances for concrete inputs

The general theorems hold for every `Ext`. To run the code on concrete inputs one instance is
fixed here: `GoVersion.lib` follows the published behaviour of `hashicorp/go-version` (v1.6),
which is a dependency and not part of the repository, and the `lib` helpers are taken from the
specification. -/

namespace GoVersion

/-- The character class `[0-9]`. -/
def isDigit (c : Char) : Bool := 48 ≤ c.toNat && c.toNat ≤ 57

/-- The character class `[A-Za-z]`. -/
def isLetter (c : Char) : Bool :=
  (65 ≤ c.toNat && c.toNat ≤ 90) || (97 ≤ c.toNat && c.toNat ≤ 122)

/-- The character class `[0-9A-Za-z\-~]` of prerelease and metadata identifiers. -/
def isIdentChar (c : Char) : Bool :=
  isDigit c || isLetter c || c.toNat == 45 || c.toNat == 126

/-- The character class `\s` of Go regular expressions: `[\t\n\f\r ]`. -/
def isSpace (c : Char) : Bool :=
  c.toNat == 9 || c.toNat == 10 || c.toNat == 12 || c.toNat == 13 || c.toNat == 32

/-- The function `strings.Split(s, sep)` for a separator of one character. -/
def splitOn (sep : Char) : List Char → List (List Char)
  | [] => [[]]
  | c :: cs =>
    if c == sep then [] :: splitOn sep cs
    else
      match splitOn sep cs with
      | [] => [[c]]
      | part :: parts => (c :: part) :: parts

/-- The value of a run of decimal digits. -/
def digitsValue (acc : Nat) : List Char → Nat
  | [] => acc
  | c :: cs => digitsValue (acc * 10 + (c.toNat - 48)) cs

/-- The function `strconv.FormatInt(n, 10)` on a number that is not negative. -/
def formatNat (n : Nat) : String := String.mk (Nat.toDigits 10 n)

/-- The language `[0-9A-Za-z\-~]+(\.[0-9A-Za-z\-~]+)*`: identifiers separated by dots, none of
them empty. -/
def identifiers (s : List Char) : Bool :=
  (splitOn '.' s).all (fun part => !part.isEmpty && part.all isIdentChar)

/-- The text before the first `+`, and the text after it when there is one. -/
def splitPlus : List Char → List Char × Option (List Char)
  | [] => ([], none)
  | c :: cs =>
    if c == '+' then ([], some cs)
    else ((c :: (splitPlus cs).1), (splitPlus cs).2)

/-- The prerelease group of the version pattern,
`(-([0-9]+[0-9A-Za-z\-~]*(\.[0-9A-Za-z\-~]+)*)|(-?([A-Za-z\-~]+[0-9A-Za-z\-~]*(\.[0-9A-Za-z\-~]+)*)))?`,
on the text `p` between the segments and the metadata: the captured prerelease
(`matches[7]`, else `matches[4]`), or `none` when `p` does not match. -/
def matchPrerelease (p : List Char) : Option (List Char) :=
  match p with
  | [] => some []
  | c :: q =>
    if c == '-' then
      if identifiers q then some q
      else if identifiers p then some p
      else none
    else if (isLetter c || c == '~') && identifiers p then some p
    else none

/-- The pattern `versionRegexp`, `^` + `VersionRegexpRaw` + `$`: the dot-separated segment
strings (`matches[1]`), the prerelease and the metadata (`matches[10]`), or `none` when the
text does not match. -/
def matchVersion (v : List Char) : Option (List (List Char) × List Char × List Char) :=
  let s := match v with
    | 'v' :: t => t
    | t => t
  let head := s.takeWhile (fun c => isDigit c || c == '.')
  let tail := s.dropWhile (fun c => isDigit c || c == '.')
  let segmentsStr := splitOn '.' head
  if segmentsStr.all (fun str => !str.isEmpty) then
    match matchPrerelease (splitPlus tail).1 with
    | none => none
    | some pre =>
      match (splitPlus tail).2 with
      | none => some (segmentsStr, pre, [])
      | some metadata =>
        if identifiers metadata then some (segmentsStr, pre, metadata) else none
  else none

/-- The struct `Version`. -/
structure Version where
  /-- Field `metadata`. -/
  metadata : String
  /-- Field `pre`. -/
  pre : String
  /-- Field `segments`, padded with zeros to three entries at least. -/
  segments : List Nat
  /-- Field `si`, the number of segments written in the text. -/
  si : Nat
  /-- Field `original`. -/
  original : String
  deriving DecidableEq, Repr

/-- The function `strconv.Quote` on a run of digits: the text between two double quotes. -/
def quote (str : List Char) : String :=
  String.mk ([Char.ofNat 34] ++ str ++ [Char.ofNat 34])

/-- The function `NewVersion`: the pattern must match and every segment must fit `int64`; the
first segment that does not ends the call with the error of `strconv.ParseInt`. -/
def NewVersion (v : String) : Except String Version :=
  match matchVersion v.data with
  | none => .error ("Malformed version: " ++ v)
  | some (segmentsStr, pre, metadata) =>
    match segmentsStr.find? (fun str => 2 ^ 63 ≤ digitsValue 0 str) with
    | some str =>
      .error ("Error parsing version: strconv.ParseInt: parsing " ++ quote str
        ++ ": value out of range")
    | none =>
      let segments := segmentsStr.map (digitsValue 0)
      .ok
        { metadata := String.mk metadata
          pre := String.mk pre
          segments := segments ++ List.replicate (3 - segments.length) 0
          si := segmentsStr.length
          original := v }

/-- The method `Version.String`. -/
def Version.String (v : Version) : String :=
  let buf := ".".intercalate (v.segments.map formatNat)
  let buf := if v.pre != "" then buf ++ "-" ++ v.pre else buf
  if v.metadata != "" then buf ++ "+" ++ v.metadata else buf

/-- The function `allZero`. -/
def allZero (segs : List Nat) : Bool := segs.all (fun s => s == 0)

/-- The segment loop of `Version.Compare`, for segments that are not equal as lists. -/
def compareSegments : List Nat → List Nat → Int
  | [], [] => 0
  | [], rhs :: other => if allZero (rhs :: other) then 0 else -1
  | lhs :: self, [] => if allZero (lhs :: self) then 0 else 1
  | lhs :: self, rhs :: other =>
    if lhs == rhs then compareSegments self other
    else if lhs < rhs then -1
    else 1

/-- The function `strconv.ParseInt(s, 10, 64)`: the value and whether no error is returned. A
value out of range is an error and the value returned is the nearest bound. -/
def ParseInt (s : List Char) : Int × Bool :=
  let neg := match s with
    | '-' :: _ => true
    | _ => false
  let digits := match s with
    | '-' :: t => t
    | '+' :: t => t
    | t => t
  if digits.isEmpty || !digits.all isDigit then (0, false)
  else
    let un := digitsValue 0 digits
    if !neg && 2 ^ 63 ≤ un then (Int.ofNat (2 ^ 63 - 1), false)
    else if neg && 2 ^ 63 < un then (-Int.ofNat (2 ^ 63), false)
    else if neg then (-Int.ofNat un, true)
    else (Int.ofNat un, true)

/-- The byte-wise order `preSelf > preOther` of Go strings. -/
def stringGreater : List Char → List Char → Bool
  | [], _ => false
  | _ :: _, [] => true
  | a :: s, b :: t => if a.toNat == b.toNat then stringGreater s t else b.toNat < a.toNat

/-- The function `comparePart`. -/
def comparePart (preSelf preOther : List Char) : Int :=
  if preSelf == preOther then 0
  else
    let selfInt := (ParseInt preSelf).1
    let selfNumeric := (ParseInt preSelf).2
    let otherInt := (ParseInt preOther).1
    let otherNumeric := (ParseInt preOther).2
    if preSelf.isEmpty then (if otherNumeric then -1 else 1)
    else if preOther.isEmpty then (if selfNumeric then 1 else -1)
    else if selfNumeric && !otherNumeric then -1
    else if !selfNumeric && otherNumeric then 1
    else if !selfNumeric && !otherNumeric && stringGreater preSelf preOther then 1
    else if otherInt < selfInt then 1
    else -1

/-- The loop of `comparePrereleases` once the parts of `other` are used up: every part of
`v` left is compared with the empty string. -/
def comparePartsSelf : List (List Char) → Int
  | [] => 0
  | partSelf :: self =>
    if comparePart partSelf [] != 0 then comparePart partSelf [] else comparePartsSelf self

/-- The loop of `comparePrereleases` once the parts of `v` are used up: the empty string is
compared with every part of `other` left. -/
def comparePartsOther : List (List Char) → Int
  | [] => 0
  | partOther :: other =>
    if comparePart [] partOther != 0 then comparePart [] partOther
    else comparePartsOther other

/-- The loop of `comparePrereleases` over the parts of both prereleases; a missing part is the
empty string, and the first difference decides. -/
def compareParts : List (List Char) → List (List Char) → Int
  | [], other => comparePartsOther other
  | partSelf :: self, [] => comparePartsSelf (partSelf :: self)
  | partSelf :: self, partOther :: other =>
    if comparePart partSelf partOther != 0 then comparePart partSelf partOther
    else compareParts self other

/-- The function `comparePrereleases`. -/
def comparePrereleases (v other : String) : Int :=
  if v == other then 0
  else compareParts (splitOn '.' v.data) (splitOn '.' other.data)

/-- The method `Version.Compare`. -/
def Version.Compare (v other : Version) : Int :=
  if v.String == other.String then 0
  else if v.segments == other.segments then
    let preSelf := v.pre
    let preOther := other.pre
    if preSelf == "" && preOther == "" then 0
    else if preSelf == "" then 1
    else if preOther == "" then -1
    else comparePrereleases preSelf preOther
  else compareSegments v.segments other.segments

/-- The method `Version.LessThan`. -/
def Version.LessThan (v o : Version) : Bool := v.Compare o < 0

/-- The method `Version.Equal`. -/
def Version.Equal (v o : Version) : Bool := v.Compare o == 0

/-- The keys of the table `constraintOperators`. -/
inductive Operator where
  /-- Keys `""` and `"="`. -/
  | equal
  /-- Key `"!="`. -/
  | notEqual
  /-- Key `">"`. -/
  | greaterThan
  /-- Key `"<"`. -/
  | lessThan
  /-- Key `">="`. -/
  | greaterThanEqual
  /-- Key `"<="`. -/
  | lessThanEqual
  /-- Key `"~>"`. -/
  | pessimistic
  deriving DecidableEq, Repr

/-- The struct `Constraint`. -/
structure Constraint where
  /-- Field `op`, which also selects the function `f`. -/
  op : Operator
  /-- Field `check`. -/
  check : Version
  /-- Field `original`. -/
  original : String
  deriving DecidableEq, Repr

/-- The lookup `constraintOperators[matches[1]]`. -/
def operatorOf (op : String) : Option Operator :=
  if op = "" then some .equal
  else if op = "=" then some .equal
  else if op = "!=" then some .notEqual
  else if op = ">" then some .greaterThan
  else if op = "<" then some .lessThan
  else if op = ">=" then some .greaterThanEqual
  else if op = "<=" then some .lessThanEqual
  else if op = "~>" then some .pessimistic
  else none

/-- The function `parseSingle`: the text must match `constraintRegexp`,
`^\s*(op)\s*(VersionRegexpRaw)\s*$`, and the version text must pass `NewVersion`. -/
def parseSingle (v : String) : Except String Constraint :=
  let s := v.data.dropWhile isSpace
  let isOp := fun (c : Char) => c == '=' || c == '!' || c == '>' || c == '<' || c == '~'
  let opText := s.takeWhile isOp
  let rest := (s.dropWhile isOp).dropWhile isSpace
  let versionText := (rest.reverse.dropWhile isSpace).reverse
  match operatorOf (String.mk opText), matchVersion versionText with
  | some op, some _ =>
    match NewVersion (String.mk versionText) with
    | .error err => .error err
    | .ok check => .ok { op := op, check := check, original := v }
  | _, _ => .error ("Malformed constraint: " ++ v)

/-- The loop of `NewConstraint` over the comma-separated parts. -/
def parseAll : List (List Char) → Except String (List Constraint)
  | [] => .ok []
  | single :: vs =>
    match parseSingle (String.mk single) with
    | .error err => .error err
    | .ok c =>
      match parseAll vs with
      | .error err => .error err
      | .ok result => .ok (c :: result)

/-- The function `NewConstraint`. -/
def NewConstraint (v : String) : Except String (List Constraint) :=
  parseAll (splitOn ',' v.data)

/-- The function `prereleaseCheck`. -/
def prereleaseCheck (v c : Version) : Bool :=
  let vPre := v.pre != ""
  let cPre := c.pre != ""
  if cPre && vPre then c.segments == v.segments
  else if !cPre && vPre then false
  else true

/-- The function `constraintPessimistic`. -/
def constraintPessimistic (v c : Version) : Bool :=
  if !prereleaseCheck v c || (c.pre != "" && v.pre == "") then false
  else if v.LessThan c then false
  else
    let cs := c.segments.length
    if v.segments.length < cs then false
    else if (List.range (c.si - 1)).any (fun i => v.segments.getD i 0 != c.segments.getD i 0)
    then false
    else if v.segments.getD (cs - 1) 0 < c.segments.getD (cs - 1) 0 then false
    else true

/-- The method `Constraint.Check`: the function `f` selected by the operator, on `v` and the
version of the constraint. -/
def Constraint.Check (c : Constraint) (v : Version) : Bool :=
  match c.op with
  | .equal => v.Equal c.check
  | .notEqual => !v.Equal c.check
  | .greaterThan => prereleaseCheck v c.check && v.Compare c.check == 1
  | .lessThan => prereleaseCheck v c.check && v.Compare c.check == -1
  | .greaterThanEqual => prereleaseCheck v c.check && v.Compare c.check ≥ 0
  | .lessThanEqual => prereleaseCheck v c.check && v.Compare c.check ≤ 0
  | .pessimistic => constraintPessimistic v c.check

/-- The method `Constraints.Check`: every constraint of the list must hold. -/
def Check (cs : List Constraint) (v : Version) : Bool :=
  cs.all (fun c => c.Check v)

/-- The library as an instance of the interface. -/
def lib : SemverLib where
  Version := Version
  Constraints := List Constraint
  NewVersion := NewVersion
  NewConstraint := NewConstraint
  LessThan := Version.LessThan
  Check := Check
  VersionString := Version.String

/-- The inner loop of `insertionSort` of Go's package `sort`,
`for j := i; j > a && data.Less(j, j-1); j-- { data.Swap(j, j-1) }`: the element `x` moves
left while it is `less` than its left neighbour. The part already in order is given last
element first, and so is the result. -/
def insertLeft {α : Type} (less : α → α → Bool) (x : α) : List α → List α
  | [] => [x]
  | y :: before => if less x y then y :: insertLeft less x before else x :: y :: before

/-- The function `insertionSort` of Go's package `sort`, on the whole slice. -/
def insertionSort {α : Type} (less : α → α → Bool) (data : List α) : List α :=
  (data.foldl (fun sorted x => insertLeft less x sorted) []).reverse

/-- The call `sort.Sort(sort.Reverse(semver.Collection(versions)))` on at most twelve versions,
where `sort.Sort` is `insertionSort`; `sort.Reverse` swaps the arguments of `Less`. On longer
slices `sort.Sort` partitions first, which this function does not follow: there it is a sort
of its own. Its output is in descending order only where `LessThan` is a strict weak order. -/
def sortReverse (versions : List Version) : List Version :=
  insertionSort (fun a b => b.LessThan a) versions

end GoVersion

/-- Modelled from the spec: `lib.ValidVersionFormat` is not among the sources. Section 4.1:
"Accepts strings matching `\d+\.\d+\.\d+(-[A-Za-z0-9]+)?` (three required numeric components,
optional hyphenated alphanumeric suffix). Rejects constraint operators, empty strings, and
partial versions." -/
def ValidVersionFormat (s : String) : Bool :=
  let core := s.data.takeWhile (fun c => GoVersion.isDigit c || c == '.')
  let suffix := s.data.dropWhile (fun c => GoVersion.isDigit c || c == '.')
  let numbers := GoVersion.splitOn '.' core
  numbers.length == 3 && numbers.all (fun n => !n.isEmpty) &&
    (match suffix with
     | [] => true
     | c :: tag =>
       c == '-' && !tag.isEmpty && tag.all (fun d => GoVersion.isDigit d || GoVersion.isLetter d))

/-- Modelled from the spec: `lib.RetrieveFileContents` is not among the sources. Section 4.3:
"read its single-line content as the version token"; section 8: "trailing whitespace/newline
must be trimmed before validation". -/
def RetrieveFileContents (raw : String) : String :=
  String.mk (raw.data.reverse.dropWhile GoVersion.isSpace).reverse

/-- Modelled from the spec: `lib.VersionExist` is not among the sources. Section 4.3: "look up
existence in catalog". -/
def VersionExist (version : String) (catalog : List String) : Bool :=
  catalog.contains version

/-- The instance of `Ext` used at concrete inputs. `lib.ConvertExecutableExt` is the identity,
as on a platform without executable extensions, and `lib.RemoveDuplicateVersions` keeps the
first occurrence of every item. -/
def goExt : Ext where
  semver := GoVersion.lib
  sortReverse := GoVersion.sortReverse
  ValidVersionFormat := ValidVersionFormat
  VersionExist := VersionExist
  RetrieveFileContents := RetrieveFileContents
  RemoveDuplicateVersions := List.eraseDups
  ConvertExecutableExt := fun path => path

/-- A run with nothing set: no flag, no argument, no file, an empty environment, the default
`--bin` value, and an upstream catalog of five versions. No string used with it holds a `$`,
so `os.ExpandEnv` changes nothing except `$HOME`, which is `/home/user`. -/
def baseWorld : World where
  Getenv := fun _ => ""
  ExpandEnv := fun s => if s = "$HOME/bin/terragrunt" then "/home/user/bin/terragrunt" else s
  custBinPath := defaultBin
  versionFlag := false
  helpFlag := false
  args := []
  TOMLConfigFile := none
  HomeTOMLConfigFile := none
  RCFile := none
  TGVersionFile := none
  TGHACLFile := none
  GetAppList := ["2.0.0", "1.5.0", "1.2.3", "1.0.0", "0.9.0"]
  recentVersionsMenu := []
  recentVersions := []
  recentDownloadFile := fun _ => false
  promptRun := fun _ => none

/-- A `.tgswitch.toml` with `version = "abc"` and nothing else to go by. -/
def tomlBadVersionWorld : World :=
  { baseWorld with TOMLConfigFile := some (.config none (some (.str "abc"))) }

/-- A `.tgswitch.toml` with `version = "1.2.3"` and `TG_VERSION=1.0.0`. -/
def tomlAndEnvWorld : World :=
  { baseWorld with
    TOMLConfigFile := some (.config none (some (.str "1.2.3")))
    Getenv := fun key => if key = "TG_VERSION" then "1.0.0" else "" }

/-- A `.tgswitch.toml` without a version and `TG_VERSION=1.0.0`. -/
def tomlNoVersionAndEnvWorld : World :=
  { baseWorld with
    TOMLConfigFile := some (.config none none)
    Getenv := fun key => if key = "TG_VERSION" then "1.0.0" else "" }

/-- One positional argument, `abc`, with every lower source there as well. -/
def badArgWorld : World :=
  { baseWorld with
    args := ["abc"]
    RCFile := some "1.0.0\n"
    TGVersionFile := some "1.2.3\n"
    TGHACLFile := some (.body ">=1.0.0")
    Getenv := fun key => if key = "TG_VERSION" then "1.5.0" else "" }

/-- An rc file `1.0.0` with a newline, a pin file, an HCL constraint and `TG_VERSION`. -/
def rcAndPinWorld : World :=
  { baseWorld with
    RCFile := some "1.0.0\n"
    TGVersionFile := some "1.2.3\n"
    TGHACLFile := some (.body ">=1.0.0")
    Getenv := fun key => if key = "TG_VERSION" then "1.5.0" else "" }

/-- The local-preference scenario: `TGS_PREFER_LOCAL=true`, the upstream catalog has `2.0.0` on
top and the installed versions have `1.5.0` on top. -/
def preferLocalWorld : World :=
  { baseWorld with
    Getenv := fun key => if key = "TGS_PREFER_LOCAL" then "true" else ""
    recentVersions := ["1.2.3", "1.5.0", "0.9.0"] }

/-! ## Lemmas on `SemVerParser` -/

/-- A successful `parseVersions` pairs every entry with its parsed version, in order. -/
theorem parseVersions_ok (L : SemverLib) :
    ∀ (l : List String) (vs : List L.Version), parseVersions L l = .ok vs →
      List.Forall₂ (fun e v => L.NewVersion e = .ok v) l vs := by
  intro l
  induction l with
  | nil =>
    intro vs h
    simp only [parseVersions, Except.ok.injEq] at h
    subst h
    exact List.Forall₂.nil
  | cons e rest ih =>
    intro vs h
    simp only [parseVersions] at h
    cases hv : L.NewVersion e with
    | error err => simp [hv] at h
    | ok v =>
      cases hr : parseVersions L rest with
      | error err => simp [hv, hr] at h
      | ok vs' =>
        simp only [hv, hr, Except.ok.injEq] at h
        subst h
        exact List.Forall₂.cons hv (ih vs' hr)

/-- When every entry parses, `parseVersions` succeeds. -/
theorem parseVersions_total (L : SemverLib) :
    ∀ l : List String, (∀ e ∈ l, ∃ v, L.NewVersion e = .ok v) →
      ∃ vs, parseVersions L l = .ok vs := by
  intro l
  induction l with
  | nil => intro _; exact ⟨[], rfl⟩
  | cons e rest ih =>
    intro h
    obtain ⟨v, hv⟩ := h e (List.mem_cons_self _ _)
    obtain ⟨vs, hvs⟩ := ih (fun e' he' => h e' (List.mem_cons_of_mem _ he'))
    exact ⟨v :: vs, by simp [parseVersions, hv, hvs]⟩

/-- When some entry does not parse, `parseVersions` fails with the error of such an entry. -/
theorem parseVersions_bad (L : SemverLib) :
    ∀ l : List String, (∃ e ∈ l, ∃ err, L.NewVersion e = .error err) →
      ∃ e ∈ l, ∃ err, L.NewVersion e = .error err ∧ parseVersions L l = .error err := by
  intro l
  induction l with
  | nil => intro h; obtain ⟨e, he, _⟩ := h; cases he
  | cons e rest ih =>
    intro h
    cases hv : L.NewVersion e with
    | error err =>
      exact ⟨e, List.mem_cons_self _ _, err, hv, by simp [parseVersions, hv]⟩
    | ok v =>
      obtain ⟨e', he', err', herr'⟩ := h
      have hrest : ∃ e ∈ rest, ∃ err, L.NewVersion e = .error err := by
        rcases List.mem_cons.mp he' with h1 | h1
        · subst h1; rw [hv] at herr'; cases herr'
        · exact ⟨e', h1, err', herr'⟩
      obtain ⟨b, hb, err, hberr, hp⟩ := ih hrest
      exact ⟨b, List.mem_cons_of_mem _ hb, err, hberr, by simp [parseVersions, hv, hp]⟩

/-- Every parsed version comes from an entry. -/
theorem forall₂_mem_right {L : SemverLib} {l : List String} {vs : List L.Version}
    (h : List.Forall₂ (fun e v => L.NewVersion e = .ok v) l vs) :
    ∀ v ∈ vs, ∃ e ∈ l, L.NewVersion e = .ok v := by
  induction h with
  | nil => intro v hv; cases hv
  | cons hev _ ih =>
    intro v hv
    rcases List.mem_cons.mp hv with h1 | h1
    · subst h1; exact ⟨_, List.mem_cons_self _ _, hev⟩
    · obtain ⟨e, he, hp⟩ := ih v h1
      exact ⟨e, List.mem_cons_of_mem _ he, hp⟩

/-- Every entry that parses is among the parsed versions. -/
theorem forall₂_mem_left {L : SemverLib} {l : List String} {vs : List L.Version}
    (h : List.Forall₂ (fun e v => L.NewVersion e = .ok v) l vs) :
    ∀ e ∈ l, ∀ w, L.NewVersion e = .ok w → w ∈ vs := by
  induction h with
  | nil => intro e he; cases he
  | cons hev _ ih =>
    intro e he w hw
    rcases List.mem_cons.mp he with h1 | h1
    · subst h1
      rw [hev] at hw
      cases hw
      exact List.mem_cons_self _ _
    · exact List.mem_cons_of_mem _ (ih e h1 w hw)

/-- A successful scan returns the rendering of the first element that passes both tests. -/
theorem scanVersions_some (X : Ext) (c : X.semver.Constraints) :
    ∀ (l : List X.semver.Version) (r : String), scanVersions X c l = some r →
      ∃ before v after, l = before ++ v :: after ∧ X.semver.Check c v = true ∧
        X.semver.VersionString v = r ∧ X.ValidVersionFormat r = true ∧
        ∀ w ∈ before, ¬ (X.semver.Check c w = true ∧
          X.ValidVersionFormat (X.semver.VersionString w) = true) := by
  intro l
  induction l with
  | nil => intro r h; simp [scanVersions] at h
  | cons a rest ih =>
    intro r h
    by_cases hc : X.semver.Check c a = true
    · by_cases hf : X.ValidVersionFormat (X.semver.VersionString a) = true
      · simp only [scanVersions, hc, hf, if_true, Option.some.injEq] at h
        subst h
        exact ⟨[], a, rest, rfl, hc, rfl, hf, by simp⟩
      · simp only [scanVersions, hc, hf, if_true] at h
        obtain ⟨before, v, after, hl, h1, h2, h3, h4⟩ := ih r h
        refine ⟨a :: before, v, after, by simp [hl], h1, h2, h3, ?_⟩
        intro w hw
        rcases List.mem_cons.mp hw with hw | hw
        · subst hw; exact fun hh => hf hh.2
        · exact h4 w hw
    · simp only [scanVersions, hc] at h
      obtain ⟨before, v, after, hl, h1, h2, h3, h4⟩ := ih r h
      refine ⟨a :: before, v, after, by simp [hl], h1, h2, h3, ?_⟩
      intro w hw
      rcases List.mem_cons.mp hw with hw | hw
      · subst hw; exact fun hh => hc hh.1
      · exact h4 w hw

/-- The scan finds nothing when no element passes both tests. -/
theorem scanVersions_none (X : Ext) (c : X.semver.Constraints) :
    ∀ l : List X.semver.Version,
      (∀ v ∈ l, ¬ (X.semver.Check c v = true ∧
        X.ValidVersionFormat (X.semver.VersionString v) = true)) →
      scanVersions X c l = none := by
  intro l
  induction l with
  | nil => intro _; rfl
  | cons a rest ih =>
    intro h
    have hrest := ih (fun v hv => h v (List.mem_cons_of_mem _ hv))
    have ha := h a (List.mem_cons_self _ _)
    by_cases hc : X.semver.Check c a = true
    · have hf : ¬ X.ValidVersionFormat (X.semver.VersionString a) = true := fun hf => ha ⟨hc, hf⟩
      simp [scanVersions, hc, hf, hrest]
    · simp [scanVersions, hc, hrest]

/-- The scan finds something when some element passes both tests. -/
theorem scanVersions_found (X : Ext) (c : X.semver.Constraints) :
    ∀ l : List X.semver.Version,
      (∃ v ∈ l, X.semver.Check c v = true ∧
        X.ValidVersionFormat (X.semver.VersionString v) = true) →
      ∃ r, scanVersions X c l = some r := by
  intro l h
  cases hs : scanVersions X c l with
  | some r => exact ⟨r, rfl⟩
  | none =>
    exfalso
    obtain ⟨v, hv, hcv⟩ := h
    induction l with
    | nil => cases hv
    | cons a rest ih =>
      by_cases hc : X.semver.Check c a = true
      · by_cases hf : X.ValidVersionFormat (X.semver.VersionString a) = true
        · simp [scanVersions, hc, hf] at hs
        · simp only [scanVersions, hc, hf, if_true] at hs
          rcases List.mem_cons.mp hv with h1 | h1
          · subst h1; exact hf hcv.2
          · exact ih hs h1
      · simp only [scanVersions, hc] at hs
        rcases List.mem_cons.mp hv with h1 | h1
        · subst h1; exact hc hcv.1
        · exact ih hs h1

/-- The element the scan stops at, in terms of the catalog: when all entries parse, the sort
rearranges them and the scan returns `r`, then `r` renders an entry that passes both tests;
and when the sorted list is in descending order, no entry that passes both tests is
greater. -/
theorem scan_sorted_maximum (X : Ext) (L : List String) (c : X.semver.Constraints)
    (vs : List X.semver.Version) (r : String)
    (hparse : parseVersions X.semver L = .ok vs)
    (hperm : (X.sortReverse vs).Perm vs)
    (hscan : scanVersions X c (X.sortReverse vs) = some r) :
    ∃ e ∈ L, ∃ v, X.semver.NewVersion e = .ok v ∧ X.semver.VersionString v = r ∧
      X.semver.Check c v = true ∧ X.ValidVersionFormat r = true ∧
      ((∀ u, X.semver.LessThan u u = false) → Descending X.semver (X.sortReverse vs) →
        ∀ e' ∈ L, ∀ w, X.semver.NewVersion e' = .ok w → X.semver.Check c w = true →
          X.ValidVersionFormat (X.semver.VersionString w) = true →
          X.semver.LessThan v w = false) := by
  obtain ⟨before, v, after, hl, hcv, hr, hfr, hbefore⟩ := scanVersions_some X c _ r hscan
  have hf2 := parseVersions_ok X.semver L vs hparse
  have hvmem : v ∈ vs := hperm.subset (by rw [hl]; simp)
  obtain ⟨e, he, hev⟩ := forall₂_mem_right hf2 v hvmem
  refine ⟨e, he, v, hev, hr, hcv, hfr, ?_⟩
  intro hirr hdesc e' he' w hw hcw hfw
  have hwvs : w ∈ vs := forall₂_mem_left hf2 e' he' w hw
  have hwsorted : w ∈ X.sortReverse vs := hperm.symm.subset hwvs
  rw [hl] at hwsorted
  rcases List.mem_append.mp hwsorted with h1 | h1
  · exact absurd ⟨hcw, hfw⟩ (hbefore w h1)
  · rcases List.mem_cons.mp h1 with h2 | h2
    · subst h2; exact hirr w
    · have hpw : (before ++ v :: after).Pairwise (fun a b => X.semver.LessThan a b = false) := by
        have := hdesc
        unfold Descending at this
        rw [hl] at this
        exact this
      have hpw2 := (List.pairwise_append.mp hpw).2.1
      exact List.rel_of_pairwise_cons hpw2 h2

/-! ## Theorems on `SemVerParser` -/

/-- C1, as amended: for every constraint `C` and every catalog `L` whose entries all parse as
versions and which holds at least one version that satisfies `C` and renders in valid strict
format, `SemVerParser C L` succeeds and returns the rendering of a version of `L` that
satisfies `C` and renders in valid strict format; and when the sort has left the parsed
versions in descending order (no version `LessThan` a later one, with `LessThan`
irreflexive), that version is a maximum, under the order of the version library, of the
versions of `L` that satisfy `C` and render in valid strict format. (Of `sort.Sort` itself
only that it rearranges its input is assumed.) -/
theorem SemVerParser_returns_maximum (X : Ext) (C : String) (L : List String)
    (hperm : ∀ vs, parseVersions X.semver L = .ok vs → (X.sortReverse vs).Perm vs)
    (hall : ∀ e ∈ L, ∃ v, X.semver.NewVersion e = .ok v)
    (hex : ∃ c, X.semver.NewConstraint C = .ok c ∧ ∃ e ∈ L, ∃ v,
      X.semver.NewVersion e = .ok v ∧ X.semver.Check c v = true ∧
      X.ValidVersionFormat (X.semver.VersionString v) = true) :
    ∃ c, X.semver.NewConstraint C = .ok c ∧ ∃ e ∈ L, ∃ v,
      X.semver.NewVersion e = .ok v ∧ X.semver.Check c v = true ∧
      X.ValidVersionFormat (X.semver.VersionString v) = true ∧
      SemVerParser X C L = (X.semver.VersionString v, none) ∧
      ((∀ u, X.semver.LessThan u u = false) →
        (∀ vs, parseVersions X.semver L = .ok vs →
          Descending X.semver (X.sortReverse vs)) →
        ∀ e' ∈ L, ∀ w, X.semver.NewVersion e' = .ok w → X.semver.Check c w = true →
          X.ValidVersionFormat (X.semver.VersionString w) = true →
          X.semver.LessThan v w = false) := by
  obtain ⟨c, hc, e0, he0, v0, hv0, hcv0, hfv0⟩ := hex
  obtain ⟨vs, hvs⟩ := parseVersions_total X.semver L hall
  have hp := hperm vs hvs
  have hf2 := parseVersions_ok X.semver L vs hvs
  have hv0mem : v0 ∈ X.sortReverse vs :=
    hp.symm.subset (forall₂_mem_left hf2 e0 he0 v0 hv0)
  obtain ⟨r, hr⟩ := scanVersions_found X c (X.sortReverse vs) ⟨v0, hv0mem, hcv0, hfv0⟩
  obtain ⟨e, he, v, hev, hvr, hcv, hfr, hmax⟩ :=
    scan_sorted_maximum X L c vs r hvs hp hr
  refine ⟨c, hc, e, he, v, hev, hcv, by rw [hvr]; exact hfr, ?_, ?_⟩
  · simp [SemVerParser, hc, hvs, hr, hvr]
  · intro hirr hdesc
    exact hmax hirr (hdesc vs hvs)

/-- C2, as amended: for every constraint `C` that parses and every catalog `L` (the empty one
included) whose entries all parse as versions and in which no version satisfies `C`,
`SemVerParser C L` returns the empty string and the error of line 51, built from the
constraint text. (Of the sort only that it rearranges its input is used.) -/
theorem SemVerParser_no_match (X : Ext) (C : String) (L : List String)
    (c : X.semver.Constraints)
    (hperm : ∀ vs, parseVersions X.semver L = .ok vs → (X.sortReverse vs).Perm vs)
    (hC : X.semver.NewConstraint C = .ok c)
    (hall : ∀ e ∈ L, ∃ v, X.semver.NewVersion e = .ok v)
    (hnone : ∀ e ∈ L, ∀ v, X.semver.NewVersion e = .ok v → X.semver.Check c v = false) :
    SemVerParser X C L = ("", some (.noMatch C)) := by
  obtain ⟨vs, hvs⟩ := parseVersions_total X.semver L hall
  have hf2 := parseVersions_ok X.semver L vs hvs
  have hscan : scanVersions X c (X.sortReverse vs) = none := by
    apply scanVersions_none
    intro v hv hh
    obtain ⟨e, he, hev⟩ := forall₂_mem_right hf2 v ((hperm vs hvs).subset hv)
    have := hnone e he v hev
    rw [this] at hh
    exact Bool.noConfusion hh.1
  simp [SemVerParser, hC, hvs, hscan]

/-- C3: for every constraint `C` that parses and every catalog `L` with at least one entry that
does not parse as a version, `SemVerParser C L` returns the empty string and the error of
line 33, which carries the library's error for such an entry; where the entry sits and what
the other entries are plays no role. -/
theorem SemVerParser_bad_entry (X : Ext) (C : String) (L : List String)
    (c : X.semver.Constraints)
    (hC : X.semver.NewConstraint C = .ok c)
    (hbad : ∃ e ∈ L, ∃ err, X.semver.NewVersion e = .error err) :
    ∃ e ∈ L, ∃ err, X.semver.NewVersion e = .error err ∧
      SemVerParser X C L = ("", some (.version err)) := by
  obtain ⟨e, he, err, herr, hp⟩ := parseVersions_bad X.semver L hbad
  exact ⟨e, he, err, herr, by simp [SemVerParser, hC, hp]⟩

/-- C10, as amended: whenever `SemVerParser C L` returns `r` without error, `r` passes
`ValidVersionFormat` and `r` is the rendering of an entry of `L` whose version satisfies `C`;
when the sort has left the parsed versions in descending order (no version `LessThan` a later
one, with `LessThan` irreflexive), no entry of `L` that satisfies `C` and renders in valid
format is greater than that entry in the order of the library; and the scan leaves an
element that satisfies `C` but renders in a format that is not valid, and goes on with the
rest. (Of `sort.Sort` itself only that it rearranges its input is assumed.) -/
theorem SemVerParser_result_sound (X : Ext) (C : String) (L : List String) (r : String)
    (hperm : ∀ vs, parseVersions X.semver L = .ok vs → (X.sortReverse vs).Perm vs)
    (h : SemVerParser X C L = (r, none)) :
    X.ValidVersionFormat r = true ∧
    (∃ c, X.semver.NewConstraint C = .ok c ∧ ∃ e ∈ L, ∃ v,
      X.semver.NewVersion e = .ok v ∧ X.semver.VersionString v = r ∧
      X.semver.Check c v = true ∧
      ((∀ u, X.semver.LessThan u u = false) →
        (∀ vs, parseVersions X.semver L = .ok vs →
          Descending X.semver (X.sortReverse vs)) →
        ∀ e' ∈ L, ∀ w, X.semver.NewVersion e' = .ok w → X.semver.Check c w = true →
          X.ValidVersionFormat (X.semver.VersionString w) = true →
          X.semver.LessThan v w = false)) ∧
    (∀ (c : X.semver.Constraints) (element : X.semver.Version)
      (rest : List X.semver.Version), X.semver.Check c element = true →
      X.ValidVersionFormat (X.semver.VersionString element) = false →
      scanVersions X c (element :: rest) = scanVersions X c rest) := by
  have hpass : ∀ (c : X.semver.Constraints) (element : X.semver.Version)
      (rest : List X.semver.Version), X.semver.Check c element = true →
      X.ValidVersionFormat (X.semver.VersionString element) = false →
      scanVersions X c (element :: rest) = scanVersions X c rest := by
    intro c element rest h1 h2
    simp [scanVersions, h1, h2]
  cases hc : X.semver.NewConstraint C with
  | error err => simp [SemVerParser, hc] at h
  | ok c =>
    cases hvs : parseVersions X.semver L with
    | error err => simp [SemVerParser, hc, hvs] at h
    | ok vs =>
      cases hscan : scanVersions X c (X.sortReverse vs) with
      | none => simp [SemVerParser, hc, hvs, hscan] at h
      | some r' =>
        simp only [SemVerParser, hc, hvs, hscan, Prod.mk.injEq, and_true] at h
        subst h
        obtain ⟨e, he, v, hev, hvr, hcv, hfr, hmax⟩ :=
          scan_sorted_maximum X L c vs r' hvs (hperm vs hvs) hscan
        exact ⟨hfr, ⟨c, rfl, e, he, v, hev, hvr, hcv,
          fun hirr hdesc => hmax hirr (hdesc vs rfl)⟩, hpass⟩

/-! ### The instance meets the hypotheses -/

/-- In the instance `LessThan` is irreflexive: `Compare` of a version with itself is `0`. -/
theorem GoVersion.lessThan_irrefl (v : GoVersion.Version) :
    GoVersion.Version.LessThan v v = false := by
  simp [GoVersion.Version.LessThan, GoVersion.Version.Compare]

/-- One pass of the inner loop keeps the elements. -/
theorem GoVersion.insertLeft_perm {α : Type} (less : α → α → Bool) (x : α) :
    ∀ l, (GoVersion.insertLeft less x l).Perm (x :: l) := by
  intro l
  induction l with
  | nil => exact List.Perm.refl _
  | cons y ys ih =>
    by_cases h : less x y = true
    · simp only [GoVersion.insertLeft, h, if_true]
      exact (List.Perm.cons y ih).trans (List.Perm.swap x y ys)
    · simp [GoVersion.insertLeft, h]

/-- The outer loop keeps the elements. -/
theorem GoVersion.foldl_insertLeft_perm {α : Type} (less : α → α → Bool) :
    ∀ (l sorted : List α),
      (l.foldl (fun sorted x => GoVersion.insertLeft less x sorted) sorted).Perm
        (l ++ sorted) := by
  intro l
  induction l with
  | nil => intro sorted; exact List.Perm.refl _
  | cons x xs ih =>
    intro sorted
    simp only [List.foldl_cons, List.cons_append]
    refine (ih _).trans ?_
    exact (List.Perm.append_left xs (GoVersion.insertLeft_perm less x sorted)).trans
      List.perm_middle

/-- The insertion sort rearranges its input, whatever `less` is. -/
theorem GoVersion.insertionSort_perm {α : Type} (less : α → α → Bool) (l : List α) :
    (GoVersion.insertionSort less l).Perm l := by
  unfold GoVersion.insertionSort
  refine (List.reverse_perm _).trans ?_
  simpa using GoVersion.foldl_insertLeft_perm less l []

/-- The sort of the instance rearranges its input. -/
theorem GoVersion.sortReverse_perm (l : List GoVersion.Version) :
    (GoVersion.sortReverse l).Perm l :=
  GoVersion.insertionSort_perm _ l

/-- One pass of the inner loop keeps the order, for a `less` that is asymmetric and
negatively transitive on the elements at hand. -/
theorem GoVersion.insertLeft_pairwise {α : Type} (less : α → α → Bool) (P : α → Prop)
    (hasym : ∀ a b, P a → P b → less a b = true → less b a = false)
    (hnt : ∀ a b c, P a → P b → P c → less a b = false → less b c = false →
      less a c = false)
    (x : α) :
    ∀ l, (∀ a ∈ x :: l, P a) → l.Pairwise (fun a b => less a b = false) →
      (GoVersion.insertLeft less x l).Pairwise (fun a b => less a b = false) := by
  intro l
  induction l with
  | nil => intro _ _; simp [GoVersion.insertLeft]
  | cons y ys ih =>
    intro hP hl
    have hPx : P x := hP x (List.mem_cons_self _ _)
    have hPy : P y := hP y (List.mem_cons_of_mem _ (List.mem_cons_self _ _))
    have hPys : ∀ a ∈ ys, P a := fun a ha =>
      hP a (List.mem_cons_of_mem _ (List.mem_cons_of_mem _ ha))
    have hy : ∀ b ∈ ys, less y b = false := fun b hb => List.rel_of_pairwise_cons hl hb
    by_cases h : less x y = true
    · simp only [GoVersion.insertLeft, h, if_true]
      refine List.Pairwise.cons ?_ ?_
      · intro b hb
        have hb2 : b ∈ x :: ys := (GoVersion.insertLeft_perm less x ys).subset hb
        rcases List.mem_cons.mp hb2 with h1 | h1
        · subst h1; exact hasym _ _ hPx hPy h
        · exact hy b h1
      · refine ih ?_ (List.Pairwise.of_cons hl)
        intro a ha
        rcases List.mem_cons.mp ha with h1 | h1
        · subst h1; exact hPx
        · exact hPys a h1
    · have hxy : less x y = false := by simpa using h
      simp only [GoVersion.insertLeft, hxy]
      refine List.Pairwise.cons ?_ hl
      intro b hb
      rcases List.mem_cons.mp hb with h1 | h1
      · subst h1; exact hxy
      · exact hnt x y b hPx hPy (hPys b h1) hxy (hy b h1)

/-- The outer loop keeps the order. -/
theorem GoVersion.foldl_insertLeft_pairwise {α : Type} (less : α → α → Bool) (P : α → Prop)
    (hasym : ∀ a b, P a → P b → less a b = true → less b a = false)
    (hnt : ∀ a b c, P a → P b → P c → less a b = false → less b c = false →
      less a c = false) :
    ∀ (l sorted : List α), (∀ a ∈ l ++ sorted, P a) →
      sorted.Pairwise (fun a b => less a b = false) →
      (l.foldl (fun sorted x => GoVersion.insertLeft less x sorted) sorted).Pairwise
        (fun a b => less a b = false) := by
  intro l
  induction l with
  | nil => intro sorted _ h; exact h
  | cons x xs ih =>
    intro sorted hP h
    simp only [List.foldl_cons]
    refine ih _ ?_ ?_
    · intro a ha
      rcases List.mem_append.mp ha with h1 | h1
      · exact hP a (by simp [h1])
      · have h2 : a ∈ x :: sorted := (GoVersion.insertLeft_perm less x sorted).subset h1
        rcases List.mem_cons.mp h2 with h3 | h3
        · subst h3; exact hP a (by simp)
        · exact hP a (by simp [h3])
    · refine GoVersion.insertLeft_pairwise less P hasym hnt x sorted ?_ h
      intro a ha
      rcases List.mem_cons.mp ha with h3 | h3
      · subst h3; exact hP a (by simp)
      · exact hP a (by simp [h3])

/-- Where `LessThan` is a strict weak order on the versions at hand (asymmetric and negatively
transitive), the sort of the instance leaves them in descending order. -/
theorem GoVersion.sortReverse_descending (vs : List GoVersion.Version)
    (hasym : ∀ a ∈ vs, ∀ b ∈ vs, a.LessThan b = true → b.LessThan a = false)
    (hnt : ∀ a ∈ vs, ∀ b ∈ vs, ∀ c ∈ vs, a.LessThan b = false → b.LessThan c = false →
      a.LessThan c = false) :
    Descending GoVersion.lib (GoVersion.sortReverse vs) := by
  unfold Descending GoVersion.sortReverse GoVersion.insertionSort
  rw [List.pairwise_reverse]
  refine GoVersion.foldl_insertLeft_pairwise (fun a b => GoVersion.Version.LessThan b a)
    (fun a => a ∈ vs) ?_ ?_ vs [] ?_ List.Pairwise.nil
  · intro a b ha hb h
    exact hasym b hb a ha h
  · intro a b c ha hb hc h1 h2
    exact hnt c hc b hb a ha h2 h1
  · intro a ha
    simpa using ha

/-! ### Concrete runs -/

/-- Witness of C1 as amended: the constraint `~>0.11.0` on the catalog
`0.11.5, 0.11.9-beta1, 0.11.10, 0.12.0` gives `0.11.10`; the sorted catalog is in descending
order, and `0.11.10` is the maximum. -/
theorem SemVerParser_returns_maximum_witness :
    SemVerParser goExt "~>0.11.0" ["0.11.5", "0.11.9-beta1", "0.11.10", "0.12.0"]
      = ("0.11.10", none) ∧
    ∃ c, goExt.semver.NewConstraint "~>0.11.0" = .ok c ∧
      ∃ e ∈ ["0.11.5", "0.11.9-beta1", "0.11.10", "0.12.0"], ∃ v,
      goExt.semver.NewVersion e = .ok v ∧ goExt.semver.Check c v = true ∧
      goExt.ValidVersionFormat (goExt.semver.VersionString v) = true ∧
      SemVerParser goExt "~>0.11.0" ["0.11.5", "0.11.9-beta1", "0.11.10", "0.12.0"]
        = (goExt.semver.VersionString v, none) ∧
      ∀ e' ∈ ["0.11.5", "0.11.9-beta1", "0.11.10", "0.12.0"], ∀ w,
        goExt.semver.NewVersion e' = .ok w → goExt.semver.Check c w = true →
        goExt.ValidVersionFormat (goExt.semver.VersionString w) = true →
        goExt.semver.LessThan v w = false := by
  refine ⟨by decide, ?_⟩
  obtain ⟨c, hc, e, he, v, hev, hcv, hfv, hres, hmax⟩ :=
    SemVerParser_returns_maximum goExt "~>0.11.0"
      ["0.11.5", "0.11.9-beta1", "0.11.10", "0.12.0"]
      (fun vs _ => GoVersion.sortReverse_perm vs)
      (by
        intro e he
        simp only [List.mem_cons, List.mem_singleton, List.not_mem_nil, or_false] at he
        rcases he with rfl | rfl | rfl | rfl <;> exact ⟨_, rfl⟩)
      ⟨_, rfl, "0.11.10", by simp, _, rfl, by decide, by decide⟩
  refine ⟨c, hc, e, he, v, hev, hcv, hfv, hres, hmax GoVersion.lessThan_irrefl ?_⟩
  intro vs h
  have h2 := Except.ok.inj h
  subst h2
  show List.Pairwise _ _
  decide

/-- Counterexample to C1 as stated, in two runs. The catalog `1.0.0, abc` holds `1.0.0`, which
satisfies `>=1.0.0` and is in valid strict format, and yet `SemVerParser` fails, with the
error of line 33 for the entry `abc`. And in the catalog `1.0.0-beta, 1.0.0.0, 1.0.0-rc1`
every entry parses, `1.0.0-beta` and `1.0.0-rc1` satisfy `>=1.0.0-alpha` in valid strict
format and `1.0.0-beta` is less than `1.0.0-rc1`, and yet `SemVerParser` returns
`1.0.0-beta`: the entry `1.0.0.0` compares equal to both, the order is not a strict weak
order and the sort leaves the three as they are. -/
theorem SemVerParser_not_maximum :
    (∃ c, goExt.semver.NewConstraint ">=1.0.0" = .ok c ∧ ∃ e ∈ ["1.0.0", "abc"], ∃ v,
      goExt.semver.NewVersion e = .ok v ∧ goExt.semver.Check c v = true ∧
      goExt.ValidVersionFormat e = true ∧
      goExt.ValidVersionFormat (goExt.semver.VersionString v) = true) ∧
    SemVerParser goExt ">=1.0.0" ["1.0.0", "abc"]
      = ("", some (.version "Malformed version: abc")) ∧
    (∀ e ∈ ["1.0.0-beta", "1.0.0.0", "1.0.0-rc1"], ∃ v, goExt.semver.NewVersion e = .ok v) ∧
    SemVerParser goExt ">=1.0.0-alpha" ["1.0.0-beta", "1.0.0.0", "1.0.0-rc1"]
      = ("1.0.0-beta", none) ∧
    (∃ c v w, goExt.semver.NewConstraint ">=1.0.0-alpha" = .ok c ∧
      goExt.semver.NewVersion "1.0.0-beta" = .ok v ∧
      goExt.semver.NewVersion "1.0.0-rc1" = .ok w ∧
      goExt.semver.Check c v = true ∧ goExt.semver.Check c w = true ∧
      goExt.ValidVersionFormat "1.0.0-beta" = true ∧
      goExt.ValidVersionFormat "1.0.0-rc1" = true ∧
      goExt.semver.VersionString v = "1.0.0-beta" ∧
      goExt.semver.VersionString w = "1.0.0-rc1" ∧
      goExt.semver.LessThan v w = true) := by
  refine ⟨⟨_, rfl, "1.0.0", by simp, _, rfl, by decide, by decide, by decide⟩, by decide,
    ?_, by decide,
    ⟨_, _, _, rfl, rfl, rfl, by decide, by decide, by decide, by decide, by decide,
      by decide, by decide⟩⟩
  intro e he
  simp only [List.mem_cons, List.mem_singleton, List.not_mem_nil, or_false] at he
  rcases he with rfl | rfl | rfl <;> exact ⟨_, rfl⟩

/-- The string returned is the rendering of an entry, not the entry: `v2.0.0` is not in
strict format, its rendering `2.0.0` is, and that is what the catalog `1.0.0, v2.0.0` gives
for `>=1.0.0`. -/
theorem SemVerParser_returns_rendering :
    SemVerParser goExt ">=1.0.0" ["1.0.0", "v2.0.0"] = ("2.0.0", none) ∧
    goExt.ValidVersionFormat "v2.0.0" = false := by
  decide

/-- Witness of C2 as amended: nothing in `0.12.0, 0.13.1` satisfies `~>0.11.0`, and nothing in
the empty catalog does. -/
theorem SemVerParser_no_match_witness :
    SemVerParser goExt "~>0.11.0" ["0.12.0", "0.13.1"] = ("", some (.noMatch "~>0.11.0")) ∧
    SemVerParser goExt "~>0.11.0" [] = ("", some (.noMatch "~>0.11.0")) :=
  ⟨SemVerParser_no_match goExt "~>0.11.0" ["0.12.0", "0.13.1"] _
    (fun vs _ => GoVersion.sortReverse_perm vs) rfl
    (by
      intro e he
      simp only [List.mem_cons, List.mem_singleton, List.not_mem_nil, or_false] at he
      rcases he with rfl | rfl <;> exact ⟨_, rfl⟩)
    (by
      intro e he v hv
      simp only [List.mem_cons, List.mem_singleton, List.not_mem_nil, or_false] at he
      rcases he with rfl | rfl <;>
      · have h2 := Except.ok.inj hv
        subst h2
        decide),
   SemVerParser_no_match goExt "~>0.11.0" [] _
    (fun vs _ => GoVersion.sortReverse_perm vs) rfl
    (by intro e he; cases he) (by intro e he; cases he)⟩

/-- Counterexample to C2 as stated: no version of the catalog `abc` satisfies `>=1.0.0`, and
`SemVerParser` fails with the error of line 33, not with the one of line 51; and for the
constraint text `>>1.0.0`, which no version satisfies either, it fails with the error of
line 26. -/
theorem SemVerParser_no_match_other_error :
    (∀ e ∈ ["abc"], ∀ c v, goExt.semver.NewConstraint ">=1.0.0" = .ok c →
      goExt.semver.NewVersion e = .ok v → goExt.semver.Check c v = false) ∧
    SemVerParser goExt ">=1.0.0" ["abc"] = ("", some (.version "Malformed version: abc")) ∧
    SemVerParser goExt ">=1.0.0" ["abc"] ≠ ("", some (.noMatch ">=1.0.0")) ∧
    (∀ e ∈ ([] : List String), ∀ c v, goExt.semver.NewConstraint ">>1.0.0" = .ok c →
      goExt.semver.NewVersion e = .ok v → goExt.semver.Check c v = false) ∧
    SemVerParser goExt ">>1.0.0" []
      = ("", some (.constraint "Malformed constraint: >>1.0.0")) ∧
    SemVerParser goExt ">>1.0.0" [] ≠ ("", some (.noMatch ">>1.0.0")) := by
  refine ⟨?_, by decide, by decide, ?_, by decide, by decide⟩
  · intro e he c v _ hv
    simp only [List.mem_singleton] at he
    subst he
    have h2 : (Except.error "Malformed version: abc" : Except String GoVersion.Version)
        = Except.ok v := hv
    cases h2
  · intro e he
    cases he

/-- Witness of C3: the entry `abc` in the middle of a catalog whose other entries satisfy
`>=1.0.0` in valid format makes `SemVerParser` fail. -/
theorem SemVerParser_bad_entry_witness :
    ∃ e ∈ ["1.0.0", "abc", "2.0.0"], ∃ err, goExt.semver.NewVersion e = .error err ∧
      SemVerParser goExt ">=1.0.0" ["1.0.0", "abc", "2.0.0"] = ("", some (.version err)) :=
  SemVerParser_bad_entry goExt ">=1.0.0" ["1.0.0", "abc", "2.0.0"] _ rfl
    ⟨"abc", by simp, _, rfl⟩

/-- Witness of C10 as amended: the run of `~>0.11.0` on
`0.11.5, 0.11.9-beta1, 0.11.10, 0.12.0` returns `0.11.10`; the sorted catalog is in descending
order, and no entry that satisfies the constraint in valid format is greater. -/
theorem SemVerParser_result_sound_witness :
    goExt.ValidVersionFormat "0.11.10" = true ∧
    ∃ c, goExt.semver.NewConstraint "~>0.11.0" = .ok c ∧
      ∃ e ∈ ["0.11.5", "0.11.9-beta1", "0.11.10", "0.12.0"], ∃ v,
      goExt.semver.NewVersion e = .ok v ∧ goExt.semver.VersionString v = "0.11.10" ∧
      goExt.semver.Check c v = true ∧
      ∀ e' ∈ ["0.11.5", "0.11.9-beta1", "0.11.10", "0.12.0"], ∀ w,
        goExt.semver.NewVersion e' = .ok w → goExt.semver.Check c w = true →
        goExt.ValidVersionFormat (goExt.semver.VersionString w) = true →
        goExt.semver.LessThan v w = false := by
  have h := SemVerParser_result_sound goExt "~>0.11.0"
    ["0.11.5", "0.11.9-beta1", "0.11.10", "0.12.0"] "0.11.10"
    (fun vs _ => GoVersion.sortReverse_perm vs) (by decide)
  obtain ⟨c, hc, e, he, v, hev, hvr, hcv, hmax⟩ := h.2.1
  refine ⟨h.1, c, hc, e, he, v, hev, hvr, hcv, hmax GoVersion.lessThan_irrefl ?_⟩
  intro vs hvs
  have h2 := Except.ok.inj hvs
  subst h2
  show List.Pairwise _ _
  decide

/-- Counterexample to C10 as stated: on the catalog `1.0.0-beta, 1.0.0.0, 1.0.0-rc1` the
constraint `>=1.0.0-alpha` returns `1.0.0-beta` without error, and the entry `1.0.0-rc1`
satisfies the constraint, renders in valid format and is greater than every entry that
renders as `1.0.0-beta`. The entry `1.0.0.0` compares equal to both of them, so the order is
not a strict weak order and the sorted list is not in descending order. -/
theorem SemVerParser_result_not_greatest :
    SemVerParser goExt ">=1.0.0-alpha" ["1.0.0-beta", "1.0.0.0", "1.0.0-rc1"]
      = ("1.0.0-beta", none) ∧
    (∃ c w, goExt.semver.NewConstraint ">=1.0.0-alpha" = .ok c ∧
      goExt.semver.NewVersion "1.0.0-rc1" = .ok w ∧ goExt.semver.Check c w = true ∧
      goExt.ValidVersionFormat (goExt.semver.VersionString w) = true ∧
      ∀ e ∈ ["1.0.0-beta", "1.0.0.0", "1.0.0-rc1"], ∀ v, goExt.semver.NewVersion e = .ok v →
        goExt.semver.VersionString v = "1.0.0-beta" → goExt.semver.LessThan v w = true) ∧
    (∃ vs, parseVersions goExt.semver ["1.0.0-beta", "1.0.0.0", "1.0.0-rc1"] = .ok vs ∧
      goExt.sortReverse vs = vs ∧ ¬ Descending goExt.semver (goExt.sortReverse vs)) := by
  refine ⟨by decide, ⟨_, _, rfl, rfl, by decide, by decide, ?_⟩, ⟨_, rfl, rfl, ?_⟩⟩
  · intro e he v hv hs
    simp only [List.mem_cons, List.mem_singleton, List.not_mem_nil, or_false] at he
    rcases he with rfl | rfl | rfl
    · have h2 := Except.ok.inj hv
      subst h2
      decide
    · have h2 := Except.ok.inj hv
      subst h2
      exact absurd hs (by decide)
    · have h2 := Except.ok.inj hv
      subst h2
      exact absurd hs (by decide)
  · show ¬ List.Pairwise _ _
    decide

/-! ## Lemmas on `main` -/

/-- Without `--version` and `--help`, with a TOML file found (the one of the working directory
first) and read by `GetParamsTOML`, `main` is the ladder "GIVEN A TOML FILE". -/
theorem main_with_toml (X : Ext) (W : World) (file : TomlFile) (version binPath : String)
    (hv : W.versionFlag = false) (hh : W.helpFlag = false)
    (hfile : W.TOMLConfigFile = some file ∨
      (W.TOMLConfigFile = none ∧ W.HomeTOMLConfigFile = some file))
    (hread : GetParamsTOML X W W.custBinPath file = .ok (version, binPath)) :
    main X W = ladderTOML X W version binPath := by
  rcases hfile with h1 | ⟨h1, h2⟩
  · simp [main, hv, hh, h1, tomlCase, hread]
  · simp [main, hv, hh, h1, h2, tomlCase, hread]

/-- Without `--version` and `--help` and without a TOML file, `main` is the second ladder. -/
theorem main_without_toml (X : Ext) (W : World)
    (hv : W.versionFlag = false) (hh : W.helpFlag = false)
    (h1 : W.TOMLConfigFile = none) (h2 : W.HomeTOMLConfigFile = none) :
    main X W = ladderNoTOML X W := by
  simp [main, hv, hh, h1, h2]

/-- A version returned by `SemVerParser` without error passes `ValidVersionFormat`; nothing
is assumed of the sort. -/
theorem SemVerParser_valid (X : Ext) (C : String) (L : List String) (r : String)
    (h : SemVerParser X C L = (r, none)) : X.ValidVersionFormat r = true := by
  cases hc : X.semver.NewConstraint C with
  | error err => simp [SemVerParser, hc] at h
  | ok c =>
    cases hvs : parseVersions X.semver L with
    | error err => simp [SemVerParser, hc, hvs] at h
    | ok vs =>
      cases hscan : scanVersions X c (X.sortReverse vs) with
      | none => simp [SemVerParser, hc, hvs, hscan] at h
      | some r' =>
        simp only [SemVerParser, hc, hvs, hscan, Prod.mk.injEq, and_true] at h
        subst h
        obtain ⟨_, _, _, _, _, _, hfr, _⟩ := scanVersions_some X c _ r' hscan
        exact hfr

/-- The function `installVersion` hands only valid versions to `lib.Install`. -/
theorem installVersion_installed_valid (X : Ext) (W : World) (arg bin v : String)
    (h : (installVersion X W arg bin).installed = some v) :
    X.ValidVersionFormat v = true := by
  unfold installVersion at h
  by_cases hf : X.ValidVersionFormat arg = true
  · by_cases hd : W.recentDownloadFile arg = true
    · simp [hf, hd, Outcome.installed] at h
    · by_cases he : X.VersionExist arg W.GetAppList = true
      · simp [hf, hd, he, Outcome.installed] at h
        subst h
        exact hf
      · simp [hf, hd, he, Outcome.installed] at h
  · simp [hf, Outcome.installed] at h

/-- The positional-argument case hands only valid versions to `lib.Install`. -/
theorem installArg_installed_valid (X : Ext) (W : World) (bin v : String)
    (h : (installArg X W bin).installed = some v) :
    X.ValidVersionFormat v = true := by
  unfold installArg at h
  generalize W.args.getD 0 "" = a at h
  by_cases hf : X.ValidVersionFormat a = true
  · by_cases he : X.VersionExist a W.GetAppList = true
    · simp [hf, he, Outcome.installed] at h
      subst h
      exact hf
    · simp [hf, he, Outcome.installed] at h
  · simp [hf, Outcome.installed] at h

/-- The function `installFromConstraint` hands only valid versions to `lib.Install`. -/
theorem installFromConstraint_installed_valid (X : Ext) (W : World) (C bin v : String)
    (h : (installFromConstraint X W C bin).installed = some v) :
    X.ValidVersionFormat v = true := by
  unfold installFromConstraint GetSemver at h
  rcases hup : SemVerParser X C W.GetAppList with ⟨u, _ | err⟩
  · have hu := SemVerParser_valid X C W.GetAppList u hup
    rw [hup] at h
    by_cases hp : preferLocalBinaries W = true
    · rcases hloc : SemVerParser X C W.recentVersions with ⟨l, _ | err⟩
      · have hl := SemVerParser_valid X C W.recentVersions l hloc
        simp [hp, hloc, Outcome.installed] at h
        subst h
        exact hl
      · simp [hp, hloc, Outcome.installed] at h
        subst h
        exact hu
    · simp [hp, Outcome.installed] at h
      subst h
      exact hu
  · rw [hup] at h
    simp [Outcome.installed] at h

/-- In the ladder without a TOML file, a version handed to `lib.Install` is valid unless it
comes from the menu of `installFromList`. -/
theorem ladderNoTOML_installed_valid (X : Ext) (W : World) (v : String)
    (h : (ladderNoTOML X W).installed = some v) :
    X.ValidVersionFormat v = true ∨ ladderNoTOML X W = installFromList X W W.custBinPath := by
  unfold ladderNoTOML at h ⊢
  split at h
  · exact Or.inl (installArg_installed_valid X W _ v h)
  · split at h
    · exact Or.inl (installVersion_installed_valid X W _ _ v h)
    · split at h
      · exact Or.inl (installVersion_installed_valid X W _ _ v h)
      · rename_i h1 h2 h3
        rw [if_neg h1, if_neg h2, if_neg h3]
        cases hh : hclCase W with
        | error o =>
          rw [hh] at h
          cases hf : W.TGHACLFile with
          | none => simp [hclCase, hf] at hh
          | some f =>
            cases f with
            | parseError =>
              simp [hclCase, hf, checkVersionDefinedHCL] at hh
              subst hh
              simp [Outcome.installed] at h
            | body c =>
              simp only [hclCase, hf, checkVersionDefinedHCL] at hh
              split at hh <;> cases hh
        | ok r =>
          rw [hh] at h
          cases r with
          | some tgFile =>
            cases tgFile with
            | parseError => simp [installTGHclFile, Outcome.installed] at h
            | body c =>
              exact Or.inl (installFromConstraint_installed_valid X W c _ v h)
          | none =>
            simp only at h ⊢
            split at h
            · exact Or.inl (installVersion_installed_valid X W _ _ v h)
            · rename_i h4
              rw [if_neg h4]
              exact Or.inr rfl

/-- In the ladder with a TOML file, a version handed to `lib.Install` is valid unless it comes
from the menu of `installFromList` or is the version declared in the TOML file. -/
theorem ladderTOML_installed_valid (X : Ext) (W : World) (version binPath v : String)
    (h : (ladderTOML X W version binPath).installed = some v) :
    X.ValidVersionFormat v = true ∨
      ladderTOML X W version binPath = installFromList X W binPath ∨
      (version ≠ "" ∧ ladderTOML X W version binPath = .install version binPath) := by
  unfold ladderTOML at h ⊢
  split at h
  · exact Or.inl (installArg_installed_valid X W _ v h)
  · split at h
    · exact Or.inl (installVersion_installed_valid X W _ _ v h)
    · split at h
      · exact Or.inl (installVersion_installed_valid X W _ _ v h)
      · rename_i h1 h2 h3
        rw [if_neg h1, if_neg h2, if_neg h3]
        cases hh : hclCase W with
        | error o =>
          rw [hh] at h
          cases hf : W.TGHACLFile with
          | none => simp [hclCase, hf] at hh
          | some f =>
            cases f with
            | parseError =>
              simp [hclCase, hf, checkVersionDefinedHCL] at hh
              subst hh
              simp [Outcome.installed] at h
            | body c =>
              simp only [hclCase, hf, checkVersionDefinedHCL] at hh
              split at hh <;> cases hh
        | ok r =>
          rw [hh] at h
          cases r with
          | some tgFile =>
            cases tgFile with
            | parseError => simp [installTGHclFile, Outcome.installed] at h
            | body c =>
              exact Or.inl (installFromConstraint_installed_valid X W c _ v h)
          | none =>
            simp only at h ⊢
            split at h
            · exact Or.inl (installVersion_installed_valid X W _ _ v h)
            · rename_i h4
              rw [if_neg h4]
              by_cases h5 : (version != "") = true
              · rw [if_pos h5]
                exact Or.inr (Or.inr ⟨by simpa using h5, rfl⟩)
              · rw [if_neg h5]
                exact Or.inr (Or.inl rfl)

/-! ## Theorems on `main` -/

/-- C4 at its failing input: with a `.tgswitch.toml` that declares `version = "abc"` and no
other source, `main` calls `lib.Install` with `abc`, which does not pass
`ValidVersionFormat`. -/
theorem main_installs_unchecked_toml_version :
    main goExt tomlBadVersionWorld = .install "abc" "/usr/local/bin/terragrunt" ∧
    (main goExt tomlBadVersionWorld).installed = some "abc" ∧
    goExt.ValidVersionFormat "abc" = false := by
  decide

/-- C5, as amended: when a TOML file exists and is read by `GetParamsTOML` with result
`(version, binPath)`, and there is no positional argument, no rc file, no version-pin file and
no HCL constraint (no HCL file, or one without the attribute), then: a version declared in
the TOML file that is not empty is handed to `lib.Install`, whatever `TG_VERSION` is; and the
value of `TG_VERSION`, when set, goes to `installVersion` only when the version of the TOML
file is empty. -/
theorem toml_version_before_env (X : Ext) (W : World) (file : TomlFile)
    (version binPath : String)
    (hv : W.versionFlag = false) (hh : W.helpFlag = false)
    (hfile : W.TOMLConfigFile = some file ∨
      (W.TOMLConfigFile = none ∧ W.HomeTOMLConfigFile = some file))
    (hread : GetParamsTOML X W W.custBinPath file = .ok (version, binPath))
    (hargs : W.args = []) (hrc : W.RCFile = none) (hpin : W.TGVersionFile = none)
    (hhcl : W.TGHACLFile = none ∨ W.TGHACLFile = some (.body "")) :
    (version ≠ "" → main X W = .install version binPath) ∧
    (version = "" → W.Getenv "TG_VERSION" ≠ "" →
      main X W = installVersion X W (W.Getenv "TG_VERSION") binPath) := by
  rw [main_with_toml X W file version binPath hv hh hfile hread]
  have hcase : hclCase W = .ok none := by
    rcases hhcl with h | h <;> simp [hclCase, h, checkVersionDefinedHCL]
  constructor
  · intro hne
    simp [ladderTOML, hargs, hrc, hpin, hcase, hne]
  · intro he henv
    simp [ladderTOML, hargs, hrc, hpin, hcase, he, CheckEnvExist, henv, GetEnvStr]

/-- Witness of C5 as amended: with `version = "1.2.3"` in the TOML file and `TG_VERSION=1.0.0`
the TOML version is installed; without a version in the TOML file the value of `TG_VERSION`
is. -/
theorem toml_version_before_env_witness :
    main goExt tomlAndEnvWorld = .install "1.2.3" "/usr/local/bin/terragrunt" ∧
    main goExt tomlNoVersionAndEnvWorld = .install "1.0.0" "/usr/local/bin/terragrunt" :=
  ⟨(toml_version_before_env goExt tomlAndEnvWorld (.config none (some (.str "1.2.3")))
      "1.2.3" "/usr/local/bin/terragrunt" rfl rfl (Or.inl rfl) rfl rfl rfl rfl
      (Or.inl rfl)).1 (by decide),
   ((toml_version_before_env goExt tomlNoVersionAndEnvWorld (.config none none)
      "" "/usr/local/bin/terragrunt" rfl rfl (Or.inl rfl) rfl rfl rfl rfl
      (Or.inl rfl)).2 rfl (by decide)).trans (by decide)⟩

/-- Counterexample to C5 as stated: a TOML file with `version = "1.2.3"`, no argument, no rc
file, no pin file, no HCL file and `TG_VERSION=1.0.0`; `main` installs `1.2.3`, the version of
the TOML file, and not the `1.0.0` of the environment variable, which `installVersion` would
install. -/
theorem env_does_not_win_over_toml_version :
    tomlAndEnvWorld.Getenv "TG_VERSION" = "1.0.0" ∧
    tomlAndEnvWorld.TOMLConfigFile = some (.config none (some (.str "1.2.3"))) ∧
    tomlAndEnvWorld.args = [] ∧ tomlAndEnvWorld.RCFile = none ∧
    tomlAndEnvWorld.TGVersionFile = none ∧ tomlAndEnvWorld.TGHACLFile = none ∧
    main goExt tomlAndEnvWorld = .install "1.2.3" "/usr/local/bin/terragrunt" ∧
    installVersion goExt tomlAndEnvWorld "1.0.0" "/usr/local/bin/terragrunt"
      = .install "1.0.0" "/usr/local/bin/terragrunt" ∧
    main goExt tomlAndEnvWorld
      ≠ installVersion goExt tomlAndEnvWorld "1.0.0" "/usr/local/bin/terragrunt" := by
  decide

/-- C6, as amended: for every `--bin` value `b` and every TOML file that `viper` reads and in
which `bin` and `version`, where declared, are strings, `GetParamsTOML` returns; the bin path
it returns is the declared `bin`, expanded by `os.ExpandEnv`, when `bin` is declared and `b`
is the default bin path, and `b` unchanged in every other case. -/
theorem GetParamsTOML_bin_path (X : Ext) (W : World) (b : String)
    (bin version : Option String) :
    (∀ s, bin = some s → b = X.ConvertExecutableExt defaultBin →
      GetParamsTOML X W b (.config (bin.map .str) (version.map .str))
        = .ok (version.getD "", W.ExpandEnv s)) ∧
    (bin = none ∨ b ≠ X.ConvertExecutableExt defaultBin →
      GetParamsTOML X W b (.config (bin.map .str) (version.map .str))
        = .ok (version.getD "", b)) := by
  constructor
  · intro s hs hb
    subst hs
    cases version <;> simp [GetParamsTOML, hb]
  · intro h
    rcases h with h | h
    · subst h
      cases version <;> by_cases hb : b = X.ConvertExecutableExt defaultBin <;>
        simp [GetParamsTOML, hb]
    · cases version <;> cases bin <;> simp [GetParamsTOML, h]

/-- Witness of C6 as amended: with the default `--bin` the declared `$HOME/bin/terragrunt` is
returned expanded; with `--bin /opt/bin/terragrunt` the flag value is returned. -/
theorem GetParamsTOML_bin_path_witness :
    GetParamsTOML goExt baseWorld "/usr/local/bin/terragrunt"
      (.config (some (.str "$HOME/bin/terragrunt")) (some (.str "1.2.3")))
      = .ok ("1.2.3", "/home/user/bin/terragrunt") ∧
    GetParamsTOML goExt baseWorld "/opt/bin/terragrunt"
      (.config (some (.str "$HOME/bin/terragrunt")) (some (.str "1.2.3")))
      = .ok ("1.2.3", "/opt/bin/terragrunt") :=
  ⟨(GetParamsTOML_bin_path goExt baseWorld "/usr/local/bin/terragrunt"
      (some "$HOME/bin/terragrunt") (some "1.2.3")).1 _ rfl rfl,
   (GetParamsTOML_bin_path goExt baseWorld "/opt/bin/terragrunt"
      (some "$HOME/bin/terragrunt") (some "1.2.3")).2 (Or.inr (by decide))⟩

/-- Counterexample to C6 as stated: for a TOML file that `viper` cannot read `GetParamsTOML`
does not return the `--bin` value `/opt/bin/terragrunt`, it ends the run with `log.Fatalf`;
and for a TOML file that declares a `bin` that is not a string, with the default `--bin`, it
does not return the declared bin either. -/
theorem GetParamsTOML_does_not_return :
    GetParamsTOML goExt baseWorld "/opt/bin/terragrunt" .unreadable = .error .fatalTOML ∧
    GetParamsTOML goExt baseWorld "/usr/local/bin/terragrunt" (.config (some .other) none)
      = .error .panicTOML ∧
    (∀ version binPath, GetParamsTOML goExt baseWorld "/opt/bin/terragrunt" .unreadable
      ≠ .ok (version, binPath)) := by
  refine ⟨rfl, rfl, ?_⟩
  intro version binPath h
  cases h

/-- C7: in both ladders, when exactly one positional argument is given and it does not pass
`ValidVersionFormat`, the run prints the usage message and returns: the outcome is
`argRejected`, in which `lib.Install` is not called, whatever the rc file, the version-pin
file, the HCL file, `TG_VERSION`, the version of the TOML file and the menu are. The same
holds of `main` without `--version` and `--help`, once `GetParamsTOML` has read the TOML file
when there is one. -/
theorem invalid_argument_rejected (X : Ext) (W : World) (a : String)
    (hargs : W.args = [a]) (hbad : X.ValidVersionFormat a = false) :
    (∀ version binPath, ladderTOML X W version binPath = .argRejected) ∧
    ladderNoTOML X W = .argRejected ∧
    (W.versionFlag = false → W.helpFlag = false →
      (∀ file version binPath,
        (W.TOMLConfigFile = some file ∨
          (W.TOMLConfigFile = none ∧ W.HomeTOMLConfigFile = some file)) →
        GetParamsTOML X W W.custBinPath file = .ok (version, binPath) →
        main X W = .argRejected) ∧
      (W.TOMLConfigFile = none → W.HomeTOMLConfigFile = none → main X W = .argRejected)) ∧
    Outcome.argRejected.printsUsage = true ∧ Outcome.argRejected.installed = none := by
  have h1 : ∀ version binPath, ladderTOML X W version binPath = .argRejected := by
    intro version binPath
    simp [ladderTOML, installArg, hargs, hbad]
  have h2 : ladderNoTOML X W = .argRejected := by
    simp [ladderNoTOML, installArg, hargs, hbad]
  refine ⟨h1, h2, ?_, rfl, rfl⟩
  intro hv hh
  constructor
  · intro file version binPath hfile hread
    rw [main_with_toml X W file version binPath hv hh hfile hread]
    exact h1 version binPath
  · intro t1 t2
    rw [main_without_toml X W hv hh t1 t2]
    exact h2

/-- Witness of C7: the argument `abc`, with an rc file, a pin file, an HCL constraint and
`TG_VERSION` all there, with and without a TOML file. -/
theorem invalid_argument_rejected_witness :
    main goExt badArgWorld = .argRejected ∧
    (∀ version binPath, ladderTOML goExt badArgWorld version binPath = .argRejected) ∧
    ladderNoTOML goExt badArgWorld = .argRejected :=
  have h := invalid_argument_rejected goExt badArgWorld "abc" rfl (by decide)
  ⟨(h.2.2.1 rfl rfl).2 rfl rfl, h.1, h.2.1⟩

/-- C8: in both ladders, for every run with no positional argument, the source that decides is
the first one there in the order rc file, version-pin file, HCL file with a constraint
attribute: the token of the rc file goes to `installVersion` when the rc file exists; else
the token of the pin file when that exists; else the constraint of the HCL file goes to
`installFromConstraint`. `TG_VERSION` and the version of the TOML file play no role. -/
theorem file_sources_in_order (X : Ext) (W : World) (hargs : W.args = []) :
    (∀ raw, W.RCFile = some raw →
      (∀ version binPath, ladderTOML X W version binPath
        = installVersion X W (X.RetrieveFileContents raw) binPath) ∧
      ladderNoTOML X W = installVersion X W (X.RetrieveFileContents raw) W.custBinPath) ∧
    (∀ raw, W.RCFile = none → W.TGVersionFile = some raw →
      (∀ version binPath, ladderTOML X W version binPath
        = installVersion X W (X.RetrieveFileContents raw) binPath) ∧
      ladderNoTOML X W = installVersion X W (X.RetrieveFileContents raw) W.custBinPath) ∧
    (∀ c, W.RCFile = none → W.TGVersionFile = none → W.TGHACLFile = some (.body c) →
      c ≠ "" →
      (∀ version binPath, ladderTOML X W version binPath
        = installFromConstraint X W c binPath) ∧
      ladderNoTOML X W = installFromConstraint X W c W.custBinPath) := by
  refine ⟨?_, ?_, ?_⟩
  · intro raw hrc
    constructor
    · intro version binPath
      simp [ladderTOML, hargs, hrc]
    · simp [ladderNoTOML, hargs, hrc]
  · intro raw hrc hpin
    constructor
    · intro version binPath
      simp [ladderTOML, hargs, hrc, hpin]
    · simp [ladderNoTOML, hargs, hrc, hpin]
  · intro c hrc hpin hhcl hc
    have hcase : hclCase W = .ok (some (.body c)) := by
      simp [hclCase, hhcl, checkVersionDefinedHCL, hc, hargs]
    constructor
    · intro version binPath
      simp [ladderTOML, hargs, hrc, hpin, hcase, installTGHclFile]
    · simp [ladderNoTOML, hargs, hrc, hpin, hcase, installTGHclFile]

/-- Witness of C8: the rc file holds `1.0.0` and a newline and the pin file exists as well,
next to an HCL constraint, `TG_VERSION` and a TOML version; the token is `1.0.0` and that is
what is installed. -/
theorem file_sources_in_order_witness :
    goExt.RetrieveFileContents "1.0.0\n" = "1.0.0" ∧
    (∀ version binPath, ladderTOML goExt rcAndPinWorld version binPath
      = installVersion goExt rcAndPinWorld "1.0.0" binPath) ∧
    ladderNoTOML goExt rcAndPinWorld = .install "1.0.0" "/usr/local/bin/terragrunt" ∧
    main goExt rcAndPinWorld = .install "1.0.0" "/usr/local/bin/terragrunt" :=
  have h := (file_sources_in_order goExt rcAndPinWorld rfl).1 "1.0.0\n" rfl
  ⟨by decide, h.1, h.2.trans (by decide), by decide⟩

/-- C9: in `installFromConstraint`, for every constraint that `SemVerParser` resolves on the
upstream catalog to `u`: with the prefer-local switch on and `SemVerParser` resolving the
same constraint on the installed versions to `l`, the version handed to `lib.Install` is
`l`; with the switch off, or with any error from the local resolution, it is `u`, and the
run does not end in an error. -/
theorem installFromConstraint_local_first (X : Ext) (W : World)
    (tgconstraint custBinPath u : String)
    (hup : SemVerParser X tgconstraint W.GetAppList = (u, none)) :
    (∀ l, preferLocalBinaries W = true →
      SemVerParser X tgconstraint W.recentVersions = (l, none) →
      installFromConstraint X W tgconstraint custBinPath = .install l custBinPath) ∧
    (preferLocalBinaries W = false ∨
        (SemVerParser X tgconstraint W.recentVersions).2 ≠ none →
      installFromConstraint X W tgconstraint custBinPath = .install u custBinPath) := by
  constructor
  · intro l hp hl
    simp [installFromConstraint, GetSemver, hup, hp, hl]
  · intro h
    rcases h with h | h
    · simp [installFromConstraint, GetSemver, hup, h]
    · rcases hloc : SemVerParser X tgconstraint W.recentVersions with ⟨l, _ | err⟩
      · rw [hloc] at h
        exact absurd rfl h
      · by_cases hp : preferLocalBinaries W = true
        · simp [installFromConstraint, GetSemver, hup, hp, hloc]
        · simp [installFromConstraint, GetSemver, hup, hp]

/-- Witness of C9: the constraint `>=1.0.0`, upstream top match `2.0.0`, local top match
`1.5.0`; with `TGS_PREFER_LOCAL=true` the install is `1.5.0`, with the variable not set it is
`2.0.0`. -/
theorem installFromConstraint_local_first_witness :
    SemVerParser goExt ">=1.0.0" preferLocalWorld.GetAppList = ("2.0.0", none) ∧
    SemVerParser goExt ">=1.0.0" preferLocalWorld.recentVersions = ("1.5.0", none) ∧
    installFromConstraint goExt preferLocalWorld ">=1.0.0" "/usr/local/bin/terragrunt"
      = .install "1.5.0" "/usr/local/bin/terragrunt" ∧
    installFromConstraint goExt baseWorld ">=1.0.0" "/usr/local/bin/terragrunt"
      = .install "2.0.0" "/usr/local/bin/terragrunt" :=
  ⟨by decide, by decide,
   (installFromConstraint_local_first goExt preferLocalWorld ">=1.0.0"
      "/usr/local/bin/terragrunt" "2.0.0" (by decide)).1 "1.5.0" (by decide) (by decide),
   (installFromConstraint_local_first goExt baseWorld ">=1.0.0"
      "/usr/local/bin/terragrunt" "2.0.0" (by decide)).2 (Or.inl (by decide))⟩

end Tgswitch
